import Mathlib

/-!
Verification of the `podaac/generate_uploader` repository.

This file gives a shallow embedding of the two core modules,
`uploader/License.py` (return of IDL licenses through a shared SSM
parameter store used as counters and as an advisory mutex) and
`uploader/Uploader.py` (granule location on EFS, upload to S3, CNM message
publication and the failure reporter), and proves the behavioural claims
about them.

Python strings are modelled as Lean `String`s; the handful of Python string
operations the code uses (`in`, `split`, `replace`, `startswith`,
`pathlib.Path.name`, `int(...)`, `str(...)`) are modelled explicitly over
`List Char` below, with Python's semantics (non-overlapping left-to-right
matching for `split`/`replace`).  The SSM parameter store is modelled as an
association list from names to string values in which a `put` prepends and
a `get` returns the most recent binding; remote-call failures of `put`
operations are injected through a `failPut` predicate, and a `get` of an
absent name models the `ParameterNotFound` client error.  The local
filesystem is modelled as a predicate `isFile` on paths, and the success of
an individual S3 upload as a predicate `ok` on paths.
-/

/-! ## Python string primitives over `List Char` -/

/-- Tests whether `p` is a prefix of `s` (Python `str.startswith`). -/
def hasPre : List Char → List Char → Bool
  | [], _ => true
  | _ :: _, [] => false
  | p :: ps, c :: cs => p == c && hasPre ps cs

/-- Tests whether `pat` occurs as a contiguous substring of `s`
(Python `pat in s`). -/
def hasSub (pat : List Char) : List Char → Bool
  | [] => hasPre pat []
  | c :: cs => hasPre pat (c :: cs) || hasSub pat cs

/-- Worker for `splitSub`.  The extra fuel argument (always at least the
length of the scanned list) makes the definition structurally recursive, so
that it reduces inside the kernel. -/
def splitSubAux (pat : List Char) : Nat → List Char → List Char → List (List Char)
  | _, [], acc => [acc.reverse]
  | 0, s, acc => [acc.reverse ++ s]
  | fuel + 1, c :: cs, acc =>
    if hasPre pat (c :: cs) then
      acc.reverse :: splitSubAux pat fuel (List.drop (pat.length - 1) cs) []
    else
      splitSubAux pat fuel cs (c :: acc)

/-- Python `s.split(pat)` for a non-empty separator `pat`: non-overlapping
matches, scanned left to right. -/
def splitSub (pat s : List Char) : List (List Char) :=
  splitSubAux pat s.length s []

/-- Python `s.replace(pat, repl)` for a non-empty `pat`, which equals
`repl.join(s.split(pat))`. -/
def replaceSub (pat repl s : List Char) : List Char :=
  List.intercalate repl (splitSub pat s)

/-- Python `pat in s` on `String`s. -/
def subStr (pat s : String) : Bool := hasSub pat.data s.data

/-- Python `s.replace(pat, repl)` on `String`s. -/
def replaceStr (pat repl s : String) : String := ⟨replaceSub pat.data repl.data s.data⟩

/-- Python `s.split(pat)` on `String`s. -/
def splitStr (pat s : String) : List String := (splitSub pat.data s.data).map String.mk

/-- Python `s.endswith(suf)`: `suf` reversed is a prefix of `s` reversed. -/
def endsWithStr (s suf : String) : Bool := hasPre suf.data.reverse s.data.reverse

/-- Python `pathlib.Path.name`: the part of the path after the last slash
(the paths built by this program never end in a slash). -/
def nameOf (s : String) : String :=
  ⟨(s.data.reverse.takeWhile (fun c => c != '/')).reverse⟩

/-- Value of a non-empty list of decimal digits. -/
def digitsToNat (s : List Char) : Nat :=
  s.foldl (fun n c => n * 10 + (c.toNat - 48)) 0

/-- Python `int(s)` restricted to the canonical decimal forms produced by
`str` on an integer: an optional leading minus sign followed by digits.
Any other input makes Python raise `ValueError`, modelled by `none`. -/
def pyInt (s : String) : Option Int :=
  match s.data with
  | '-' :: c :: cs =>
    if (c :: cs).all Char.isDigit then some (-(digitsToNat (c :: cs) : Int)) else none
  | c :: cs =>
    if (c :: cs).all Char.isDigit then some ((digitsToNat (c :: cs) : Int)) else none
  | [] => none

/-! ## The SSM parameter store model -/

/-- The shared parameter store: an association list from parameter names to
string values.  `putParam` prepends, so `getParam` sees the newest value. -/
abbrev Store := List (String × String)

/-- `ssm.get_parameter(Name=n)`: `none` models the `ParameterNotFound`
client error. -/
def getParam (s : Store) (n : String) : Option String :=
  (s.find? (fun p => p.1 == n)).map (fun p => p.2)

/-- `ssm.put_parameter(Name=n, Value=v, Overwrite=True)`. -/
def putParam (s : Store) (n v : String) : Store := (n, v) :: s

/-- One name of `ssm.delete_parameters(Names=[...])`. -/
def delParam (s : Store) (n : String) : Store := s.filter (fun p => p.1 != n)

/-- Name `{prefix}-idl-{dataset}-{unique_id}-lic` (License.py line 56). -/
def licKey (pre ds uid : String) : String := pre ++ "-idl-" ++ ds ++ "-" ++ uid ++ "-lic"

/-- Name `{prefix}-idl-{dataset}-{unique_id}-floating` (License.py line 57). -/
def floatKey (pre ds uid : String) : String := pre ++ "-idl-" ++ ds ++ "-" ++ uid ++ "-floating"

/-- Name `{prefix}-idl-retrieving-license` (License.py line 60). -/
def retrievingKey (pre : String) : String := pre ++ "-idl-retrieving-license"

/-- Name `{prefix}-idl-{dataset}` (License.py line 109). -/
def datasetKey (pre ds : String) : String := pre ++ "-idl-" ++ ds

/-- Name `{prefix}-idl-floating` (License.py line 115). -/
def floatingKey (pre : String) : String := pre ++ "-idl-floating"

/-- Result of a store-writing helper: normal return, a raised
`botocore.exceptions.ClientError`, or a raised `ValueError` from `int(...)`
(which no `except` clause in License.py catches). -/
inductive WriteRes where
  | ok (s : Store)
  | err (s : Store)
  | pyCrash (s : Store)
deriving DecidableEq, Repr

/-- Embeds `License.hold_license` (License.py lines 88-102): writes the
value `on_hold` to the retrieval-hold flag; a `ClientError` is logged and
re-raised. -/
def hold_license (failPut : String → Bool) (pre on_hold : String) (s : Store) : WriteRes :=
  if failPut (retrievingKey pre) then .err s
  else .ok (putParam s (retrievingKey pre) on_hold)

/-- Embeds `License.write_licenses` (License.py lines 104-128): overwrites
the shared dataset counter with the job's value, then reads the shared
floating counter and overwrites it with `int(floating_lic) +
int(current_floating)`.  A `ClientError` is logged and re-raised. -/
def write_licenses (failPut : String → Bool) (pre ds dataset_lic floating_lic : String)
    (s : Store) : WriteRes :=
  if failPut (datasetKey pre ds) then .err s
  else
    let s1 := putParam s (datasetKey pre ds) dataset_lic
    match getParam s1 (floatingKey pre) with
    | none => .err s1
    | some current =>
      match pyInt floating_lic, pyInt current with
      | some fl, some cur =>
        if failPut (floatingKey pre) then .err s1
        else .ok (putParam s1 (floatingKey pre) (toString (fl + cur)))
      | _, _ => .pyCrash s1

/-- How one call of `License.return_licenses` ends: normal return, `exit(1)`
after a caught `ClientError`, an uncaught `ValueError`, or blocked forever
in the polling loop (the flag reads `"True"` and, with no concurrent
writer in this single-run model, never changes). -/
inductive RunOutcome where
  | success
  | fatalExit
  | crashed
  | blocked
deriving DecidableEq, Repr

/-- Embeds `License.return_licenses` (License.py lines 49-86) as a state
transformer on the parameter store: read the run's two private counters
(absence raises `ParameterNotFound`, caught and turned into `exit(1)`),
poll the retrieval-hold flag, place the hold, write the shared counters,
release the hold, and delete the two private counters.  Any `ClientError`
in between is caught by the single `except` clause and ends in `exit(1)`
with the store as it was at the raise. -/
def return_licenses (failPut : String → Bool) (pre ds uid : String) (s : Store) :
    RunOutcome × Store :=
  match getParam s (licKey pre ds uid) with
  | none => (.fatalExit, s)
  | some dataset_lic =>
    match getParam s (floatKey pre ds uid) with
    | none => (.fatalExit, s)
    | some floating_lic =>
      match getParam s (retrievingKey pre) with
      | none => (.fatalExit, s)
      | some rv =>
        if rv == "True" then (.blocked, s)
        else
          match hold_license failPut pre "True" s with
          | .err s1 => (.fatalExit, s1)
          | .pyCrash s1 => (.crashed, s1)
          | .ok s1 =>
            match write_licenses failPut pre ds dataset_lic floating_lic s1 with
            | .err s2 => (.fatalExit, s2)
            | .pyCrash s2 => (.crashed, s2)
            | .ok s2 =>
              match hold_license failPut pre "False" s2 with
              | .err s3 => (.fatalExit, s3)
              | .pyCrash s3 => (.crashed, s3)
              | .ok s3 =>
                (.success,
                 delParam (delParam s3 (licKey pre ds uid)) (floatKey pre ds uid))

/-- Observable events of the polling loop of `return_licenses`
(License.py lines 60-67). -/
inductive LockEv where
  | pollFlag (v : Option String)
  | sleepSecs (n : Nat)
  | writeTrue
  | fatalStop
deriving DecidableEq, Repr

/-- Embeds the lock-acquire protocol of `return_licenses` (License.py lines
60-67) as a trace over the sequence of values the successive
`get_parameter` calls on the retrieval-hold flag return (`none` = the
parameter is absent, so the read raises `ParameterNotFound`).  Returns the
event trace and whether the code reached the point of writing `"True"`
(the `hold_license(ssm, "True")` call).  While the flag reads `"True"` the
loop sleeps 3 seconds and re-polls; on any other value it proceeds; on an
absent flag the raised client error is caught and the process exits. -/
def acquireHold : List (Option String) → List LockEv × Bool
  | [] => ([], false)
  | some v :: rest =>
    if v == "True" then
      ((.pollFlag (some v)) :: (.sleepSecs 3) :: (acquireHold rest).1, (acquireHold rest).2)
    else ([.pollFlag (some v), .writeTrue], true)
  | none :: _ => ([.pollFlag none, .fatalStop], false)

/-! ## The Uploader model -/

/-- The three datasets of `Uploader.DATA_DICT`. -/
inductive Dataset where
  | aqua
  | terra
  | viirs
deriving DecidableEq, Repr

/-- The dataset name string (`self.dataset`). -/
def dsName : Dataset → String
  | .aqua => "aqua"
  | .terra => "terra"
  | .viirs => "viirs"

/-- `DATA_DICT[dataset]["dirname0"]`. -/
def dirname0 : Dataset → String
  | .aqua => "MODIS_L2P_CORE_NETCDF"
  | .terra => "MODIS_L2P_CORE_NETCDF"
  | .viirs => "VIIRS_L2P_CORE_NETCDF"

/-- `DATA_DICT[dataset]["dirname1"]`. -/
def dirname1base : Dataset → String
  | .aqua => "MODIS_A"
  | .terra => "MODIS_T"
  | .viirs => "VIIRS"

/-- `DATA_DICT[dataset]["filename"]`. -/
def filenameTpl : Dataset → String
  | .aqua => "TS-JPL-L2P_GHRSST-SSTskin-MODIS_A-T-v02.0-fv01.0"
  | .terra => "TS-JPL-L2P_GHRSST-SSTskin-MODIS_T-T-v02.0-fv01.0"
  | .viirs => "TS-JPL-L2P_GHRSST-SSTskin-VIIRS_NPP-T-v02.0-fv01.0"

/-- Uploader.py line 161: the second directory component, with `_REFINED`
appended unless the processing type is `quicklook`. -/
def dirname1 (ds : Dataset) (ptype : String) : String :=
  if ptype == "quicklook" then dirname1base ds else dirname1base ds ++ "_REFINED"

/-- Uploader.py line 165: `timestamp.replace("T", "")`. -/
def stripT (t : String) : String := replaceStr "T" "" t

/-- Year, month, day, hour, minute, second parsed by
`datetime.datetime.strptime(ts, "%Y%m%d%H%M%S")`. -/
structure PyTime where
  year : Nat
  month : Nat
  day : Nat
  hour : Nat
  minute : Nat
  second : Nat
deriving DecidableEq, Repr

/-- Gregorian leap-year rule, as used by `datetime`. -/
def isLeapYear (y : Nat) : Bool := (y % 4 == 0 && y % 100 != 0) || y % 400 == 0

/-- Days in a month, as used by `datetime`. -/
def daysInMonth (y m : Nat) : Nat :=
  if m == 2 then (if isLeapYear y then 29 else 28)
  else if m == 4 || m == 6 || m == 9 || m == 11 then 30
  else 31

/-- `timetuple().tm_yday`: the day of the year. -/
def ydayOf (y m d : Nat) : Nat :=
  d + (((List.range (m - 1)).map (fun i => daysInMonth y (i + 1))).sum)

/-- `datetime.datetime.strptime(ts, "%Y%m%d%H%M%S")` on the 14-digit
timestamps this program feeds it: `none` models the raised `ValueError`
(wrong shape or a field out of range), which no `except` clause catches. -/
def strptime14 (s : String) : Option PyTime :=
  let cs := s.data
  if cs.length == 14 && cs.all Char.isDigit then
    let y := digitsToNat (cs.take 4)
    let mo := digitsToNat ((cs.drop 4).take 2)
    let d := digitsToNat ((cs.drop 6).take 2)
    let h := digitsToNat ((cs.drop 8).take 2)
    let mi := digitsToNat ((cs.drop 10).take 2)
    let se := digitsToNat ((cs.drop 12).take 2)
    if 1 ≤ y && 1 ≤ mo && mo ≤ 12 && 1 ≤ d && d ≤ daysInMonth y mo
        && h ≤ 23 && mi ≤ 59 && se ≤ 59 then
      some ⟨y, mo, d, h, mi, se⟩
    else none
  else none

/-- `pathlib.Path.joinpath` with a relative component. -/
def joinP (a b : String) : String := a ++ "/" ++ b

/-- Uploader.py lines 167-172: the directory
`<data_dir>/processor/output/<dirname0>/<dirname1>/<year>/<day of year>`. -/
def l2pDirFor (dataDir : String) (ds : Dataset) (ptype : String) (tm : PyTime) : String :=
  joinP (joinP (joinP (joinP (joinP (joinP dataDir "processor") "output")
    (dirname0 ds)) (dirname1 ds ptype)) (toString tm.year))
    (toString (ydayOf tm.year tm.month tm.day))

/-- Uploader.py lines 174-177 and 187-188: the full path of the day
(`variant = "-D-"`) or night (`variant = "-N-"`) data file for one
timestamp: the filename template with `TS` replaced by the stripped
timestamp and `-T-` replaced by the variant, with `.nc` appended, inside
the computed directory.  The checksum sidecar path appends `.md5` to this
path (Uploader.py line 179 joins an absolute path, which pathlib resolves
to exactly the data-file path with `.md5` appended). -/
def dataFilePath (dataDir : String) (ds : Dataset) (ptype ts : String) (tm : PyTime)
    (variant : String) : String :=
  joinP (l2pDirFor dataDir ds ptype tm)
    (replaceStr "-T-" variant (replaceStr "TS" ts (filenameTpl ds)) ++ ".nc")

/-- One iteration of the `for timestamp in timestamps` loop of
`Uploader.load_efs_l2p` (Uploader.py lines 164-196): its contributions to
`l2p_list` and to `missing_checksum`, or `none` when `strptime` raises. -/
def locateTimestamp (isFile : String → Bool) (dataDir : String) (ds : Dataset)
    (ptype t : String) : Option (List String × List String) :=
  let ts := stripT t
  match strptime14 ts with
  | none => none
  | some tm =>
    let dayNc := dataFilePath dataDir ds ptype ts tm "-D-"
    let d : List String × List String :=
      if isFile dayNc then
        if isFile (dayNc ++ ".md5") then ([dayNc, dayNc ++ ".md5"], [])
        else ([], [dayNc])
      else ([], [])
    let nightNc := dataFilePath dataDir ds ptype ts tm "-N-"
    let n : List String × List String :=
      if isFile nightNc then
        if isFile (nightNc ++ ".md5") then ([nightNc, nightNc ++ ".md5"], [])
        else ([], [nightNc])
      else ([], [])
    some (d.1 ++ n.1, d.2 ++ n.2)

/-- Embeds `Uploader.load_efs_l2p` (Uploader.py lines 152-198) over the
timestamp list of the job: returns `(l2p_list, missing_checksum)`, or
`none` when a timestamp makes `strptime` raise. -/
def load_efs_l2p (isFile : String → Bool) (dataDir : String) (ds : Dataset)
    (ptype : String) : List String → Option (List String × List String)
  | [] => some ([], [])
  | t :: rest =>
    match locateTimestamp isFile dataDir ds ptype t with
    | none => none
    | some lm =>
      match load_efs_l2p isFile dataDir ds ptype rest with
      | none => none
      | some lmr => some (lm.1 ++ lmr.1, lm.2 ++ lmr.2)

/-- Stated from the spec's words, for comparison with `load_efs_l2p`: the
two candidate data-file paths of a timestamp, day before night (empty when
the timestamp does not parse). -/
def candidatePaths (dataDir : String) (ds : Dataset) (ptype t : String) : List String :=
  match strptime14 (stripT t) with
  | none => []
  | some tm =>
    [dataFilePath dataDir ds ptype (stripT t) tm "-D-",
     dataFilePath dataDir ds ptype (stripT t) tm "-N-"]

/-- Stated from the spec's words, for comparison with `load_efs_l2p`: in
input order and with day before night, each candidate data file that exists
together with its checksum sidecar contributes the pair (data file, then
sidecar). -/
def foundSpec (isFile : String → Bool) (dataDir : String) (ds : Dataset) (ptype : String)
    (tss : List String) : List String :=
  tss.flatMap (fun t =>
    ((candidatePaths dataDir ds ptype t).filter
        (fun p => isFile p && isFile (p ++ ".md5"))).flatMap
      (fun p => [p, p ++ ".md5"]))

/-- Stated from the spec's words, for comparison with `load_efs_l2p`: in
input order, the candidate data files that exist without their checksum
sidecar. -/
def missingSpec (isFile : String → Bool) (dataDir : String) (ds : Dataset) (ptype : String)
    (tss : List String) : List String :=
  tss.flatMap (fun t =>
    (candidatePaths dataDir ds ptype t).filter
      (fun p => isFile p && !isFile (p ++ ".md5")))

/-- Uploader.py lines 204 and 211: the S3 URI under which a local file is
uploaded: `s3://{prefix}-l2p-granules/{dataset}/{l2p.name}`. -/
def uploadUri (pre : String) (ds : Dataset) (p : String) : String :=
  "s3://" ++ pre ++ "-l2p-granules" ++ "/" ++ dsName ds ++ "/" ++ nameOf p

/-- Embeds `Uploader.upload_l2p_s3` (Uploader.py lines 200-219): attempts
every file of `l2p_list` in order; a successful upload (`ok p`) appends the
S3 URI to `l2p_s3`, a raised `ClientError` appends the local path to
`error_list`, and the loop always continues with the next file. -/
def upload_l2p_s3 (ok : String → Bool) (pre : String) (ds : Dataset) :
    List String → List String × List String
  | [] => ([], [])
  | p :: rest =>
    let r := upload_l2p_s3 ok pre ds rest
    if ok p then (uploadUri pre ds p :: r.1, r.2) else (r.1, p :: r.2)

/-- Embeds the selection loop of `Uploader.publish_cnm_message`
(Uploader.py lines 221-231): one CNM message is created and published for
each element of `l2p_s3` whose URI does not contain `.md5` (the
`if ".md5" in l2p: continue` guard); the result lists, in order, the URIs
for which a message was published. -/
def publish_cnm_message (l2p_s3 : List String) : List String :=
  l2p_s3.filter (fun u => !(subStr ".md5" u))

/-- Embeds the filename recovery of `Uploader.create_message` (Uploader.py
line 237): `l2p.split('/')[4].split('.nc')[0]`, the identifier and product
name of the CNM message.  Out-of-range indexing (which would raise in
Python) is modelled by empty-string defaults; the round-trip theorem shows
the defaults are never reached for the URIs the uploader builds. -/
def create_message_filename (l2p : String) : String :=
  ((splitStr ".nc" ((splitStr "/" l2p).getD 4 "")).headD "")

/-- Python `"\n".join(l)`. -/
def joinNL (l : List String) : String := String.intercalate "\n" l

/-- Embeds the message construction of `Uploader.report_errors`
(Uploader.py lines 305-347) as a pure function of the formatted UTC
timestamp, the two environment strings, the ECS log metadata (empty when
unavailable) and the three error lists.  Note Uploader.py line 328
assigns (`message =`) instead of appending when the missing-checksum list
is non-empty, exactly as reproduced here. -/
def report_errors_message (now jobId jobQueue logMeta : String)
    (missing upload publish : List String) : String :=
  let message := "Uploader AWS Batch job L2P granule failures for " ++ now ++ "."
  let message := message ++ "\n\nJOB INFORMATION:\n"
  let message := message ++ "Job Identifier: " ++ jobId ++ "\n"
  let message := message ++ "Job Queue: " ++ jobQueue
  let message := if logMeta == "" then message else message ++ "\n\n" ++ logMeta
  let message := message ++ "\n\nERROR INFORMATION:"
  let message :=
    if missing.length > 0 then
      "\nThe following L2P granule files are missing checksums...\n" ++ joinNL missing
    else message
  let message :=
    if upload.length > 0 then
      message ++ "\nThe following L2P granule files failed to upload to S3 bucket...\n"
        ++ joinNL upload
    else message
  let message :=
    if publish.length > 0 then
      message
        ++ "\nThe following L2P granule NetCDF and checksum files failed to be published to the Cumulus Topic...\n"
        ++ joinNL publish
    else message
  message
    ++ "\n\nPlease follow these steps to diagnose the error: https://wiki.jpl.nasa.gov/pages/viewpage.action?pageId=771470900#GenerateCloudErrorDetection&Recovery-AWSBatchJobFailures\n\n\n"

/-- Checks that a list is a flat sequence of (data file, checksum sidecar)
pairs: even length, every even position ends in `.nc`, and every odd
position is the preceding path with `.md5` appended. -/
def ncMd5PairsB : List String → Bool
  | [] => true
  | [_] => false
  | p :: q :: rest => endsWithStr p ".nc" && q == p ++ ".md5" && ncMd5PairsB rest

/-- The part of the filename template after the leading `TS`. -/
def tplTail : Dataset → String
  | .aqua => "-JPL-L2P_GHRSST-SSTskin-MODIS_A-T-v02.0-fv01.0"
  | .terra => "-JPL-L2P_GHRSST-SSTskin-MODIS_T-T-v02.0-fv01.0"
  | .viirs => "-JPL-L2P_GHRSST-SSTskin-VIIRS_NPP-T-v02.0-fv01.0"

/-- The filename tail of a day file: `tplTail` with `-T-` made `-D-`. -/
def dayTail : Dataset → String
  | .aqua => "-JPL-L2P_GHRSST-SSTskin-MODIS_A-D-v02.0-fv01.0"
  | .terra => "-JPL-L2P_GHRSST-SSTskin-MODIS_T-D-v02.0-fv01.0"
  | .viirs => "-JPL-L2P_GHRSST-SSTskin-VIIRS_NPP-D-v02.0-fv01.0"

/-- The filename tail of a night file: `tplTail` with `-T-` made `-N-`. -/
def nightTail : Dataset → String
  | .aqua => "-JPL-L2P_GHRSST-SSTskin-MODIS_A-N-v02.0-fv01.0"
  | .terra => "-JPL-L2P_GHRSST-SSTskin-MODIS_T-N-v02.0-fv01.0"
  | .viirs => "-JPL-L2P_GHRSST-SSTskin-VIIRS_NPP-N-v02.0-fv01.0"

/-- Composition of the upload run as `Uploader.upload` performs it
(Uploader.py lines 128-150): locate the granules, upload every located file,
then publish one CNM message per uploaded data file.  Returns the
`missing_checksum` list, the `l2p_s3` list of uploaded URIs, and the list
of URIs for which a CNM message was published. -/
def uploadPipeline (isFile ok : String → Bool) (dataDir pre : String) (ds : Dataset)
    (ptype : String) (tss : List String) : List String × List String × List String :=
  let lm := (load_efs_l2p isFile dataDir ds ptype tss).getD ([], [])
  let s3 := (upload_l2p_s3 ok pre ds lm.1).1
  (lm.2, s3, publish_cnm_message s3)

/-! ## Store lemmas -/

theorem getParam_cons (n v m : String) (s : Store) :
    getParam ((n, v) :: s) m = if n = m then some v else getParam s m := by
  by_cases h : n = m
  · subst h; simp [getParam]
  · simp [getParam, List.find?_cons, h]

theorem delParam_cons (k v n : String) (s : Store) :
    delParam ((k, v) :: s) n = if k = n then delParam s n else (k, v) :: delParam s n := by
  by_cases h : k = n <;> simp [delParam, List.filter_cons, h]

theorem getParam_del_self (s : Store) (n : String) : getParam (delParam s n) n = none := by
  induction s with
  | nil => rfl
  | cons a s ih =>
    obtain ⟨k, v⟩ := a
    by_cases h : k = n
    · simpa [delParam_cons, h] using ih
    · simpa [delParam_cons, h, getParam_cons] using ih

theorem getParam_del_of_ne (s : Store) (n m : String) (h : m ≠ n) :
    getParam (delParam s n) m = getParam s m := by
  induction s with
  | nil => rfl
  | cons a s ih =>
    obtain ⟨k, v⟩ := a
    by_cases hk : k = n
    · subst hk
      rw [delParam_cons, if_pos rfl, ih, getParam_cons, if_neg (fun he => h he.symm)]
    · rw [delParam_cons, if_neg hk, getParam_cons, getParam_cons, ih]

/-! ## Evaluation of a clean run of return_licenses -/

theorem return_licenses_run (pre ds uid dl fl cur dpr : String) (jf f : Int)
    (hfl : pyInt fl = some jf) (hcur : pyInt cur = some f)
    (hA : licKey pre ds uid ≠ floatKey pre ds uid)
    (hB : licKey pre ds uid ≠ retrievingKey pre)
    (hC : floatKey pre ds uid ≠ retrievingKey pre)
    (hD : datasetKey pre ds ≠ floatingKey pre)
    (hE : retrievingKey pre ≠ floatingKey pre)
    (hF : licKey pre ds uid ≠ floatingKey pre)
    (hG : floatKey pre ds uid ≠ floatingKey pre) :
    return_licenses (fun _ => false) pre ds uid
      [(licKey pre ds uid, dl), (floatKey pre ds uid, fl),
       (retrievingKey pre, "False"), (floatingKey pre, cur),
       (datasetKey pre ds, dpr)]
    = (.success,
       delParam (delParam
         ((retrievingKey pre, "False") ::
          (floatingKey pre, toString (jf + f)) ::
          (datasetKey pre ds, dl) ::
          (retrievingKey pre, "True") ::
          [(licKey pre ds uid, dl), (floatKey pre ds uid, fl),
           (retrievingKey pre, "False"), (floatingKey pre, cur),
           (datasetKey pre ds, dpr)]) (licKey pre ds uid)) (floatKey pre ds uid)) := by
  have hb : (("False" : String) == "True") = false := by decide
  simp only [return_licenses, hold_license, write_licenses, putParam,
    getParam_cons, if_pos rfl, if_neg hA, if_neg hB, if_neg hC, if_neg hD,
    if_neg hE, if_neg hF, if_neg hG, hb, hfl, hcur, Bool.false_eq_true,
    if_false, ite_false, if_true, ite_true]

/-! ## Claims about License.return_licenses -/

/-- C1: the claim states that the retrieval-hold flag is written back to
"False" on every exit path of `return_licenses`, including when the write
of the shared dataset or floating counters fails.  The code violates this:
evaluating the embedding at a store with both private counters present, the
flag at "False", and a `ClientError` injected on the put of the shared
dataset counter, the run exits fatally with the flag still holding
"True". -/
theorem claim1_lock_left_held_on_write_failure :
    (return_licenses (fun n => n == datasetKey "p" "aqua") "p" "aqua" "1"
      [(licKey "p" "aqua" "1", "7"), (floatKey "p" "aqua" "1", "5"),
       (retrievingKey "p", "False"), (floatingKey "p", "10"),
       (datasetKey "p" "aqua", "3")]).1 = RunOutcome.fatalExit
    ∧ getParam (return_licenses (fun n => n == datasetKey "p" "aqua") "p" "aqua" "1"
      [(licKey "p" "aqua" "1", "7"), (floatKey "p" "aqua" "1", "5"),
       (retrievingKey "p", "False"), (floatingKey "p", "10"),
       (datasetKey "p" "aqua", "3")]).2 (retrievingKey "p") = some "True" := by
  decide

/-- C2: for every prior shared dataset value `d`, prior shared floating
value `f`, and a job holding dataset count `jd` and floating count `jf`,
after a clean `return_licenses` the shared dataset counter holds exactly
the job's value (overwritten) and the shared floating counter holds
`f + jf` (added). -/
theorem claim2_counter_write_asymmetry (pre ds uid : String) (jd jf f d : Int)
    (hjf : pyInt (toString jf) = some jf) (hf : pyInt (toString f) = some f)
    (hA : licKey pre ds uid ≠ floatKey pre ds uid)
    (hB : licKey pre ds uid ≠ retrievingKey pre)
    (hC : floatKey pre ds uid ≠ retrievingKey pre)
    (hD : datasetKey pre ds ≠ floatingKey pre)
    (hE : retrievingKey pre ≠ floatingKey pre)
    (hF : licKey pre ds uid ≠ floatingKey pre)
    (hG : floatKey pre ds uid ≠ floatingKey pre)
    (hH : datasetKey pre ds ≠ licKey pre ds uid)
    (hI : datasetKey pre ds ≠ floatKey pre ds uid)
    (hJ : datasetKey pre ds ≠ retrievingKey pre) :
    (return_licenses (fun _ => false) pre ds uid
      [(licKey pre ds uid, toString jd), (floatKey pre ds uid, toString jf),
       (retrievingKey pre, "False"), (floatingKey pre, toString f),
       (datasetKey pre ds, toString d)]).1 = RunOutcome.success
    ∧ getParam (return_licenses (fun _ => false) pre ds uid
      [(licKey pre ds uid, toString jd), (floatKey pre ds uid, toString jf),
       (retrievingKey pre, "False"), (floatingKey pre, toString f),
       (datasetKey pre ds, toString d)]).2 (datasetKey pre ds) = some (toString jd)
    ∧ getParam (return_licenses (fun _ => false) pre ds uid
      [(licKey pre ds uid, toString jd), (floatKey pre ds uid, toString jf),
       (retrievingKey pre, "False"), (floatingKey pre, toString f),
       (datasetKey pre ds, toString d)]).2 (floatingKey pre) = some (toString (f + jf)) := by
  have h := return_licenses_run pre ds uid (toString jd) (toString jf) (toString f)
    (toString d) jf f hjf hf hA hB hC hD hE hF hG
  rw [h]
  refine ⟨rfl, ?_, ?_⟩
  · rw [getParam_del_of_ne _ _ _ hI, getParam_del_of_ne _ _ _ hH,
      getParam_cons, if_neg (Ne.symm hJ), getParam_cons, if_neg (Ne.symm hD),
      getParam_cons, if_pos rfl]
  · rw [getParam_del_of_ne _ _ _ (Ne.symm hG), getParam_del_of_ne _ _ _ (Ne.symm hF),
      getParam_cons, if_neg hE, getParam_cons, if_pos rfl, Int.add_comm jf f]

/-- Witness for C2 at prefix "podaac-ops", dataset "aqua", run id "4",
job counts 7 (dataset) and 5 (floating), prior shared values 3 and 10. -/
theorem claim2_witness :
    pyInt (toString (5 : Int)) = some 5
    ∧ ((return_licenses (fun _ => false) "podaac-ops" "aqua" "4"
        [(licKey "podaac-ops" "aqua" "4", toString (7 : Int)),
         (floatKey "podaac-ops" "aqua" "4", toString (5 : Int)),
         (retrievingKey "podaac-ops", "False"),
         (floatingKey "podaac-ops", toString (10 : Int)),
         (datasetKey "podaac-ops" "aqua", toString (3 : Int))]).1 = RunOutcome.success
      ∧ getParam (return_licenses (fun _ => false) "podaac-ops" "aqua" "4"
        [(licKey "podaac-ops" "aqua" "4", toString (7 : Int)),
         (floatKey "podaac-ops" "aqua" "4", toString (5 : Int)),
         (retrievingKey "podaac-ops", "False"),
         (floatingKey "podaac-ops", toString (10 : Int)),
         (datasetKey "podaac-ops" "aqua", toString (3 : Int))]).2
          (datasetKey "podaac-ops" "aqua") = some (toString (7 : Int))
      ∧ getParam (return_licenses (fun _ => false) "podaac-ops" "aqua" "4"
        [(licKey "podaac-ops" "aqua" "4", toString (7 : Int)),
         (floatKey "podaac-ops" "aqua" "4", toString (5 : Int)),
         (retrievingKey "podaac-ops", "False"),
         (floatingKey "podaac-ops", toString (10 : Int)),
         (datasetKey "podaac-ops" "aqua", toString (3 : Int))]).2
          (floatingKey "podaac-ops") = some (toString ((10 : Int) + 5))) :=
  ⟨by decide,
   claim2_counter_write_asymmetry "podaac-ops" "aqua" "4" 7 5 10 3
     (by decide) (by decide) (by decide) (by decide) (by decide) (by decide)
     (by decide) (by decide) (by decide) (by decide) (by decide) (by decide)⟩

/-- C3 (counterexample): with the retrieval-hold flag record absent, the
claim says the code writes "True" and proceeds without failing; instead the
raised `ParameterNotFound` is caught and the process exits fatally, never
writing the flag. -/
theorem claim3_absent_flag_is_fatal :
    (acquireHold [none]).2 = false
    ∧ LockEv.writeTrue ∉ (acquireHold [none]).1
    ∧ LockEv.fatalStop ∈ (acquireHold [none]).1 := by
  decide

/-- C3 (amended): the lock-acquire protocol polls the shared flag; while
the value read is "True" it sleeps a fixed 3-unit interval and re-polls;
when the value read is "False" it writes "True" and proceeds; when the
flag record is absent the read raises and the process exits fatally
instead of proceeding. -/
theorem claim3_poll_protocol (reads : List (Option String)) :
    acquireHold (some "True" :: reads)
      = (LockEv.pollFlag (some "True") :: LockEv.sleepSecs 3 :: (acquireHold reads).1,
         (acquireHold reads).2)
    ∧ acquireHold (some "False" :: reads)
      = ([LockEv.pollFlag (some "False"), LockEv.writeTrue], true)
    ∧ acquireHold (none :: reads) = ([LockEv.pollFlag none, LockEv.fatalStop], false) := by
  have h1 : (("True" : String) == "True") = true := by decide
  have h2 : (("False" : String) == "True") = false := by decide
  refine ⟨?_, ?_, ?_⟩ <;> simp [acquireHold, h1, h2]

/-- C8: a second invocation of `return_licenses` after a first clean
invocation (which deleted the run's two private counter keys) fails
fatally at the initial private-counter read, performing no store writes,
rather than silently succeeding with zero. -/
theorem claim8_second_return_fatal (pre ds uid dl fl cur dpr : String) (jf f : Int)
    (hfl : pyInt fl = some jf) (hcur : pyInt cur = some f)
    (hA : licKey pre ds uid ≠ floatKey pre ds uid)
    (hB : licKey pre ds uid ≠ retrievingKey pre)
    (hC : floatKey pre ds uid ≠ retrievingKey pre)
    (hD : datasetKey pre ds ≠ floatingKey pre)
    (hE : retrievingKey pre ≠ floatingKey pre)
    (hF : licKey pre ds uid ≠ floatingKey pre)
    (hG : floatKey pre ds uid ≠ floatingKey pre) :
    (return_licenses (fun _ => false) pre ds uid
      [(licKey pre ds uid, dl), (floatKey pre ds uid, fl),
       (retrievingKey pre, "False"), (floatingKey pre, cur),
       (datasetKey pre ds, dpr)]).1 = RunOutcome.success
    ∧ getParam (return_licenses (fun _ => false) pre ds uid
      [(licKey pre ds uid, dl), (floatKey pre ds uid, fl),
       (retrievingKey pre, "False"), (floatingKey pre, cur),
       (datasetKey pre ds, dpr)]).2 (licKey pre ds uid) = none
    ∧ getParam (return_licenses (fun _ => false) pre ds uid
      [(licKey pre ds uid, dl), (floatKey pre ds uid, fl),
       (retrievingKey pre, "False"), (floatingKey pre, cur),
       (datasetKey pre ds, dpr)]).2 (floatKey pre ds uid) = none
    ∧ (return_licenses (fun _ => false) pre ds uid
        (return_licenses (fun _ => false) pre ds uid
          [(licKey pre ds uid, dl), (floatKey pre ds uid, fl),
           (retrievingKey pre, "False"), (floatingKey pre, cur),
           (datasetKey pre ds, dpr)]).2).1 = RunOutcome.fatalExit
    ∧ (return_licenses (fun _ => false) pre ds uid
        (return_licenses (fun _ => false) pre ds uid
          [(licKey pre ds uid, dl), (floatKey pre ds uid, fl),
           (retrievingKey pre, "False"), (floatingKey pre, cur),
           (datasetKey pre ds, dpr)]).2).2
      = (return_licenses (fun _ => false) pre ds uid
          [(licKey pre ds uid, dl), (floatKey pre ds uid, fl),
           (retrievingKey pre, "False"), (floatingKey pre, cur),
           (datasetKey pre ds, dpr)]).2 := by
  have h := return_licenses_run pre ds uid dl fl cur dpr jf f hfl hcur
    hA hB hC hD hE hF hG
  rw [h]
  have hlic : getParam
      (delParam (delParam
        ((retrievingKey pre, "False") ::
         (floatingKey pre, toString (jf + f)) ::
         (datasetKey pre ds, dl) ::
         (retrievingKey pre, "True") ::
         [(licKey pre ds uid, dl), (floatKey pre ds uid, fl),
          (retrievingKey pre, "False"), (floatingKey pre, cur),
          (datasetKey pre ds, dpr)]) (licKey pre ds uid)) (floatKey pre ds uid))
      (licKey pre ds uid) = none := by
    rw [getParam_del_of_ne _ _ _ hA, getParam_del_self]
  refine ⟨rfl, hlic, getParam_del_self _ _, ?_, ?_⟩
  · simp only [return_licenses, hlic]
  · simp only [return_licenses, hlic]

/-- Witness for C8 at prefix "podaac-ops", dataset "aqua", run id "4". -/
theorem claim8_witness :
    pyInt "5" = some 5
    ∧ ((return_licenses (fun _ => false) "podaac-ops" "aqua" "4"
        [(licKey "podaac-ops" "aqua" "4", "7"), (floatKey "podaac-ops" "aqua" "4", "5"),
         (retrievingKey "podaac-ops", "False"), (floatingKey "podaac-ops", "10"),
         (datasetKey "podaac-ops" "aqua", "3")]).1 = RunOutcome.success
      ∧ getParam (return_licenses (fun _ => false) "podaac-ops" "aqua" "4"
        [(licKey "podaac-ops" "aqua" "4", "7"), (floatKey "podaac-ops" "aqua" "4", "5"),
         (retrievingKey "podaac-ops", "False"), (floatingKey "podaac-ops", "10"),
         (datasetKey "podaac-ops" "aqua", "3")]).2 (licKey "podaac-ops" "aqua" "4") = none
      ∧ getParam (return_licenses (fun _ => false) "podaac-ops" "aqua" "4"
        [(licKey "podaac-ops" "aqua" "4", "7"), (floatKey "podaac-ops" "aqua" "4", "5"),
         (retrievingKey "podaac-ops", "False"), (floatingKey "podaac-ops", "10"),
         (datasetKey "podaac-ops" "aqua", "3")]).2 (floatKey "podaac-ops" "aqua" "4") = none
      ∧ (return_licenses (fun _ => false) "podaac-ops" "aqua" "4"
          (return_licenses (fun _ => false) "podaac-ops" "aqua" "4"
            [(licKey "podaac-ops" "aqua" "4", "7"), (floatKey "podaac-ops" "aqua" "4", "5"),
             (retrievingKey "podaac-ops", "False"), (floatingKey "podaac-ops", "10"),
             (datasetKey "podaac-ops" "aqua", "3")]).2).1 = RunOutcome.fatalExit
      ∧ (return_licenses (fun _ => false) "podaac-ops" "aqua" "4"
          (return_licenses (fun _ => false) "podaac-ops" "aqua" "4"
            [(licKey "podaac-ops" "aqua" "4", "7"), (floatKey "podaac-ops" "aqua" "4", "5"),
             (retrievingKey "podaac-ops", "False"), (floatingKey "podaac-ops", "10"),
             (datasetKey "podaac-ops" "aqua", "3")]).2).2
        = (return_licenses (fun _ => false) "podaac-ops" "aqua" "4"
            [(licKey "podaac-ops" "aqua" "4", "7"), (floatKey "podaac-ops" "aqua" "4", "5"),
             (retrievingKey "podaac-ops", "False"), (floatingKey "podaac-ops", "10"),
             (datasetKey "podaac-ops" "aqua", "3")]).2) :=
  ⟨by decide,
   claim8_second_return_fatal "podaac-ops" "aqua" "4" "7" "5" "10" "3" 5 10
     (by decide) (by decide) (by decide) (by decide) (by decide) (by decide)
     (by decide) (by decide) (by decide)⟩

/-! ## Claims about the upload pipeline -/

theorem length_filter_not_add (p : String → Bool) (l : List String) :
    (l.filter p).length + (l.filter (fun a => !p a)).length = l.length := by
  induction l with
  | nil => rfl
  | cons a l ih =>
    cases h : p a <;> simp [List.filter_cons, h, ← ih] <;> omega

/-- C5: uploading a list of N files of which exactly K fail yields the
URIs of the successful files (in order) and the paths of the failing files
(in order), of lengths N−K and K; no failure aborts the remaining
uploads. -/
theorem claim5_upload_partial_failure (ok : String → Bool) (pre : String) (ds : Dataset)
    (l : List String) :
    (upload_l2p_s3 ok pre ds l).1 = (l.filter (fun p => ok p)).map (uploadUri pre ds)
    ∧ (upload_l2p_s3 ok pre ds l).2 = l.filter (fun p => !ok p)
    ∧ (upload_l2p_s3 ok pre ds l).1.length
        = l.length - (l.filter (fun p => !ok p)).length
    ∧ (upload_l2p_s3 ok pre ds l).2.length = (l.filter (fun p => !ok p)).length := by
  have key : (upload_l2p_s3 ok pre ds l).1 = (l.filter (fun p => ok p)).map (uploadUri pre ds)
      ∧ (upload_l2p_s3 ok pre ds l).2 = l.filter (fun p => !ok p) := by
    induction l with
    | nil => exact ⟨rfl, rfl⟩
    | cons a l ih =>
      cases h : ok a <;>
        simp [upload_l2p_s3, List.filter_cons, h, ih.1, ih.2]
  have hlen := length_filter_not_add (fun p => ok p) l
  refine ⟨key.1, key.2, ?_, ?_⟩
  · rw [key.1, List.length_map]
    omega
  · rw [key.2]

set_option maxRecDepth 40000 in
/-- C7: the claim states the aggregated failure report always contains the
job-information header and loses no earlier part when a later category is
appended.  The code violates it: Uploader.py line 328 assigns instead of
appending, so whenever the missing-checksum list is non-empty the header
(and everything before that point) is dropped from the message; with a
failed upload and no missing checksum the header survives. -/
theorem claim7_header_lost_when_missing_nonempty :
    subStr "JOB INFORMATION" (report_errors_message "2026-01-01 00:00:00" "job-1"
      "queue-1" "" ["/data/f1.nc"] [] []) = false
    ∧ subStr "The following L2P granule files are missing checksums"
        (report_errors_message "2026-01-01 00:00:00" "job-1" "queue-1" ""
          ["/data/f1.nc"] [] []) = true
    ∧ subStr "JOB INFORMATION" (report_errors_message "2026-01-01 00:00:00" "job-1"
      "queue-1" "" [] ["/data/f1.nc"] []) = true := by
  decide

/-! ## The granule locator: load_efs_l2p versus its contract -/

theorem hasPre_append_self (p x : List Char) : hasPre p (p ++ x) = true := by
  induction p with
  | nil => rfl
  | cons c p ih => simp [hasPre, ih]

theorem endsWithStr_append (a suf : String) : endsWithStr (a ++ suf) suf = true := by
  unfold endsWithStr
  rw [String.data_append, List.reverse_append]
  exact hasPre_append_self _ _

theorem ne_append_nc_md5 (a b : String) : a ++ ".nc" ≠ b ++ ".md5" := by
  intro h
  have hd : a.data ++ ".nc".data = b.data ++ ".md5".data := by
    have := congrArg String.data h
    rwa [String.data_append, String.data_append] at this
  have h1 : (a.data ++ ".nc".data).getLast? = some 'c' := by
    rw [List.getLast?_append_of_ne_nil _ (by decide)]; rfl
  have h2 : (b.data ++ ".md5".data).getLast? = some '5' := by
    rw [List.getLast?_append_of_ne_nil _ (by decide)]; rfl
  rw [hd, h2] at h1
  simp at h1

theorem mem_candidatePaths_ends_nc (dataDir : String) (ds : Dataset) (ptype t p : String)
    (h : p ∈ candidatePaths dataDir ds ptype t) : ∃ a, p = a ++ ".nc" := by
  unfold candidatePaths at h
  cases hs : strptime14 (stripT t) with
  | none => rw [hs] at h; simp at h
  | some tm =>
    rw [hs] at h
    simp only [List.mem_cons, List.mem_singleton] at h
    have hshape : ∀ v : String,
        dataFilePath dataDir ds ptype (stripT t) tm v
          = (l2pDirFor dataDir ds ptype tm ++ "/"
              ++ replaceStr "-T-" v (replaceStr "TS" (stripT t) (filenameTpl ds))) ++ ".nc" := by
      intro v
      simp [dataFilePath, joinP, String.append_assoc]
    rcases h with h | h | h
    · exact ⟨_, by rw [h, hshape]⟩
    · exact ⟨_, by rw [h, hshape]⟩
    · cases h

theorem locateTimestamp_eq (isFile : String → Bool) (dataDir : String) (ds : Dataset)
    (ptype t : String) (tm : PyTime) (h : strptime14 (stripT t) = some tm) :
    locateTimestamp isFile dataDir ds ptype t
      = some (((candidatePaths dataDir ds ptype t).filter
                 (fun p => isFile p && isFile (p ++ ".md5"))).flatMap
                (fun p => [p, p ++ ".md5"]),
              (candidatePaths dataDir ds ptype t).filter
                (fun p => isFile p && !isFile (p ++ ".md5"))) := by
  simp only [locateTimestamp, candidatePaths, h]
  cases h1 : isFile (dataFilePath dataDir ds ptype (stripT t) tm "-D-") <;>
    cases h3 : isFile (dataFilePath dataDir ds ptype (stripT t) tm "-N-") <;>
    cases h2 : isFile (dataFilePath dataDir ds ptype (stripT t) tm "-D-" ++ ".md5") <;>
    cases h4 : isFile (dataFilePath dataDir ds ptype (stripT t) tm "-N-" ++ ".md5") <;>
    simp [h1, h2, h3, h4, List.filter_cons]

theorem load_efs_l2p_eq (isFile : String → Bool) (dataDir : String) (ds : Dataset)
    (ptype : String) (tss : List String)
    (h : ∀ t ∈ tss, (strptime14 (stripT t)).isSome = true) :
    load_efs_l2p isFile dataDir ds ptype tss
      = some (foundSpec isFile dataDir ds ptype tss,
              missingSpec isFile dataDir ds ptype tss) := by
  induction tss with
  | nil => rfl
  | cons t rest ih =>
    obtain ⟨tm, htm⟩ := Option.isSome_iff_exists.mp (h t (by simp))
    rw [load_efs_l2p, locateTimestamp_eq _ _ _ _ _ tm htm,
      ih (fun x hx => h x (List.mem_cons_of_mem _ hx))]
    simp [foundSpec, missingSpec]

/-- C4: for every list of (well-formed) timestamps, the locator returns in
`l2p_list` exactly the (data file, checksum sidecar) pairs whose two files
both exist and in `missing_checksum` exactly the data files that exist
without their sidecar, preserving input timestamp order with the day
variant before the night variant, and no path is in both lists. -/
theorem claim4_locator_exact (isFile : String → Bool) (dataDir : String) (ds : Dataset)
    (ptype : String) (tss : List String)
    (h : ∀ t ∈ tss, (strptime14 (stripT t)).isSome = true) :
    load_efs_l2p isFile dataDir ds ptype tss
      = some (foundSpec isFile dataDir ds ptype tss,
              missingSpec isFile dataDir ds ptype tss)
    ∧ ∀ p ∈ foundSpec isFile dataDir ds ptype tss,
        p ∉ missingSpec isFile dataDir ds ptype tss := by
  refine ⟨load_efs_l2p_eq _ _ _ _ _ h, ?_⟩
  intro p hp hm
  simp only [foundSpec, List.mem_flatMap, List.mem_filter, List.mem_cons,
    List.mem_singleton, List.not_mem_nil, or_false, Bool.and_eq_true] at hp
  simp only [missingSpec, List.mem_flatMap, List.mem_filter, Bool.and_eq_true,
    Bool.not_eq_true'] at hm
  obtain ⟨t, ht, q, ⟨hqc, hqf, hqm⟩, hpq⟩ := hp
  obtain ⟨t', ht', hmc, hmf, hmm⟩ := hm
  rcases hpq with rfl | rfl
  · rw [hqm] at hmm
    cases hmm
  · obtain ⟨a, ha⟩ := mem_candidatePaths_ends_nc dataDir ds ptype t' _ hmc
    exact ne_append_nc_md5 a q ha.symm

/-- Witness for C4: one valid timestamp, with a filesystem on which every
`.nc` data file exists and no checksum sidecar does. -/
theorem claim4_witness :
    (∀ t ∈ ["20230101T120000"], (strptime14 (stripT t)).isSome = true)
    ∧ (load_efs_l2p (fun s => endsWithStr s ".nc") "/mnt/data" Dataset.aqua "quicklook"
        ["20230101T120000"]
        = some (foundSpec (fun s => endsWithStr s ".nc") "/mnt/data" Dataset.aqua "quicklook"
                  ["20230101T120000"],
                missingSpec (fun s => endsWithStr s ".nc") "/mnt/data" Dataset.aqua "quicklook"
                  ["20230101T120000"])
      ∧ ∀ p ∈ foundSpec (fun s => endsWithStr s ".nc") "/mnt/data" Dataset.aqua "quicklook"
            ["20230101T120000"],
          p ∉ missingSpec (fun s => endsWithStr s ".nc") "/mnt/data" Dataset.aqua "quicklook"
            ["20230101T120000"]) :=
  ⟨by decide,
   claim4_locator_exact (fun s => endsWithStr s ".nc") "/mnt/data" Dataset.aqua "quicklook"
     ["20230101T120000"] (by decide)⟩

theorem ncMd5PairsB_blocks (rest : List String) (hr : ncMd5PairsB rest = true) :
    ∀ l : List String, (∀ q ∈ l, endsWithStr q ".nc" = true) →
      ncMd5PairsB (l.flatMap (fun q => [q, q ++ ".md5"]) ++ rest) = true
  | [], _ => by simpa using hr
  | q :: l, hl => by
    have hq : endsWithStr q ".nc" = true := hl q (by simp)
    have ih := ncMd5PairsB_blocks rest hr l (fun x hx => hl x (by simp [hx]))
    simp only [List.flatMap_cons, List.cons_append, List.append_assoc]
    simp [ncMd5PairsB, hq, ih]

theorem ncMd5PairsB_even : ∀ l : List String, ncMd5PairsB l = true → l.length % 2 = 0
  | [], _ => rfl
  | [_], h => by simp [ncMd5PairsB] at h
  | _ :: _ :: rest, h => by
    have hrest : ncMd5PairsB rest = true := by
      simp only [ncMd5PairsB, Bool.and_eq_true] at h
      exact h.2
    have := ncMd5PairsB_even rest hrest
    simp only [List.length_cons]
    omega

theorem foundSpec_alternates (isFile : String → Bool) (dataDir : String) (ds : Dataset)
    (ptype : String) (tss : List String) :
    ncMd5PairsB (foundSpec isFile dataDir ds ptype tss) = true := by
  induction tss with
  | nil => rfl
  | cons t rest ih =>
    have : foundSpec isFile dataDir ds ptype (t :: rest)
        = ((candidatePaths dataDir ds ptype t).filter
            (fun p => isFile p && isFile (p ++ ".md5"))).flatMap
            (fun p => [p, p ++ ".md5"])
          ++ foundSpec isFile dataDir ds ptype rest := by
      simp [foundSpec]
    rw [this]
    refine ncMd5PairsB_blocks _ ih _ ?_
    intro q hq
    obtain ⟨a, rfl⟩ := mem_candidatePaths_ends_nc dataDir ds ptype t q
      (List.mem_of_mem_filter hq)
    exact endsWithStr_append a ".nc"

/-- C9: the `l2p_list` returned by `load_efs_l2p` has even length and
alternates strictly between a data path ending in `.nc` and that same path
with `.md5` appended, and every path in `missing_checksum` ends in
`.nc`. -/
theorem claim9_found_list_alternates (isFile : String → Bool) (dataDir : String)
    (ds : Dataset) (ptype : String) (tss : List String)
    (h : ∀ t ∈ tss, (strptime14 (stripT t)).isSome = true) :
    ncMd5PairsB ((load_efs_l2p isFile dataDir ds ptype tss).getD ([], [])).1 = true
    ∧ ((load_efs_l2p isFile dataDir ds ptype tss).getD ([], [])).1.length % 2 = 0
    ∧ ∀ m ∈ ((load_efs_l2p isFile dataDir ds ptype tss).getD ([], [])).2,
        endsWithStr m ".nc" = true := by
  rw [load_efs_l2p_eq _ _ _ _ _ h]
  simp only [Option.getD_some]
  refine ⟨foundSpec_alternates _ _ _ _ _, ncMd5PairsB_even _ (foundSpec_alternates _ _ _ _ _), ?_⟩
  intro m hm
  simp only [missingSpec, List.mem_flatMap, List.mem_filter] at hm
  obtain ⟨t, ht, hmc, _⟩ := hm
  obtain ⟨a, rfl⟩ := mem_candidatePaths_ends_nc dataDir ds ptype t m hmc
  exact endsWithStr_append a ".nc"

/-- Witness for C9 at one valid timestamp, with all data files present and
all sidecars absent. -/
theorem claim9_witness :
    (∀ t ∈ ["20230101T120000"], (strptime14 (stripT t)).isSome = true)
    ∧ (ncMd5PairsB ((load_efs_l2p (fun s => endsWithStr s ".nc") "/mnt/data" Dataset.viirs
          "refined" ["20230101T120000"]).getD ([], [])).1 = true
      ∧ ((load_efs_l2p (fun s => endsWithStr s ".nc") "/mnt/data" Dataset.viirs
          "refined" ["20230101T120000"]).getD ([], [])).1.length % 2 = 0
      ∧ ∀ m ∈ ((load_efs_l2p (fun s => endsWithStr s ".nc") "/mnt/data" Dataset.viirs
          "refined" ["20230101T120000"]).getD ([], [])).2,
          endsWithStr m ".nc" = true) :=
  ⟨by decide,
   claim9_found_list_alternates (fun s => endsWithStr s ".nc") "/mnt/data" Dataset.viirs
     "refined" ["20230101T120000"] (by decide)⟩

/-! ## Lemmas about the Python split model -/

theorem splitSubAux_fuel (pat : List Char) :
    ∀ (n m : Nat) (s acc : List Char), s.length ≤ n → s.length ≤ m →
      splitSubAux pat n s acc = splitSubAux pat m s acc := by
  intro n
  induction n with
  | zero =>
    intro m s acc hn _
    have : s = [] := List.length_eq_zero.mp (Nat.le_antisymm hn (Nat.zero_le _))
    subst this
    cases m <;> rfl
  | succ n ih =>
    intro m s acc hn hm
    cases s with
    | nil => cases m <;> rfl
    | cons c cs =>
      cases m with
      | zero => simp at hm
      | succ m =>
        simp only [splitSubAux]
        by_cases hp : hasPre pat (c :: cs) = true
        · rw [if_pos hp, if_pos hp]
          have hlen : (List.drop (pat.length - 1) cs).length ≤ cs.length := by
            rw [List.length_drop]; omega
          have hcs : cs.length ≤ n := by simpa using hn
          have hcs' : cs.length ≤ m := by simpa using hm
          rw [ih _ _ _ (Nat.le_trans hlen hcs) (Nat.le_trans hlen hcs')]
        · rw [if_neg hp, if_neg hp]
          exact ih _ _ _ (by simpa using hn) (by simpa using hm)

theorem splitSubAux_no_match (pat : List Char) :
    ∀ (s : List Char), hasSub pat s = false →
      ∀ (fuel : Nat) (acc : List Char), splitSubAux pat fuel s acc = [acc.reverse ++ s] := by
  intro s
  induction s with
  | nil => intro _ fuel acc; cases fuel <;> simp [splitSubAux]
  | cons c cs ih =>
    intro h fuel acc
    simp only [hasSub, Bool.or_eq_false_iff] at h
    cases fuel with
    | zero => rfl
    | succ fuel =>
      simp only [splitSubAux, h.1, Bool.false_eq_true, if_false]
      rw [ih h.2]
      simp

theorem splitSubAux_acc (pat : List Char) :
    ∀ (fuel : Nat) (s acc : List Char),
      splitSubAux pat fuel s acc
        = List.modifyHead (fun x => acc.reverse ++ x) (splitSubAux pat fuel s []) := by
  intro fuel
  induction fuel with
  | zero =>
    intro s acc
    cases s <;> simp [splitSubAux]
  | succ fuel ih =>
    intro s acc
    cases s with
    | nil => simp [splitSubAux]
    | cons c cs =>
      by_cases hp : hasPre pat (c :: cs) = true
      · simp [splitSubAux, hp]
      · simp only [splitSubAux, hp, Bool.false_eq_true, if_false]
        rw [ih cs (c :: acc), ih cs [c]]
        cases haux : splitSubAux pat fuel cs [] with
        | nil => simp
        | cons hd tl => simp

theorem splitSubAux_skip (p : Char) (ps : List Char) :
    ∀ (a : List Char), p ∉ a →
      ∀ (fuel : Nat) (b acc : List Char),
        splitSubAux (p :: ps) fuel (a ++ b) acc
          = splitSubAux (p :: ps) (fuel - a.length) b (a.reverse ++ acc) := by
  intro a
  induction a with
  | nil => intro _ fuel b acc; simp
  | cons c a' ih =>
    intro hp fuel b acc
    have hpc : p ≠ c := fun h => hp (h ▸ List.mem_cons_self c a')
    have hpa : p ∉ a' := fun h => hp (List.mem_cons_of_mem _ h)
    cases fuel with
    | zero =>
      cases b with
      | nil => simp [splitSubAux]
      | cons d bs => simp [splitSubAux]
    | succ fuel =>
      have hpre : hasPre (p :: ps) (c :: (a' ++ b)) = false := by
        simp [hasPre, hpc]
      simp only [List.cons_append, splitSubAux, List.append_eq, hpre,
        Bool.false_eq_true, if_false]
      rw [ih hpa fuel b (c :: acc)]
      simp [Nat.succ_sub_succ]

theorem splitSubAux_match (p : Char) (ps b acc : List Char) (fuel : Nat)
    (hf : ps.length + b.length ≤ fuel) :
    splitSubAux (p :: ps) (fuel + 1) ((p :: ps) ++ b) acc
      = acc.reverse :: splitSubAux (p :: ps) b.length b [] := by
  have hpre : hasPre (p :: ps) ((p :: ps) ++ b) = true := hasPre_append_self _ _
  simp only [List.cons_append, splitSubAux, List.append_eq]
  rw [if_pos (by simpa using hpre)]
  have hdrop : List.drop ((p :: ps).length - 1) (ps ++ b) = b := by
    simp [List.drop_left]
  rw [hdrop, splitSubAux_fuel (p :: ps) fuel b.length b [] (by omega) (Nat.le_refl _)]

theorem hasSub_of_hasPre (pat : List Char) (s : List Char) (h : hasPre pat s = true) :
    hasSub pat s = true := by
  cases s with
  | nil => simpa [hasSub] using h
  | cons c cs => simp [hasSub, h]

theorem hasPre_take (p s : List Char) (h : hasPre p s = true) :
    p.length ≤ s.length ∧ s.take p.length = p := by
  induction p generalizing s with
  | nil => simp
  | cons x p ih =>
    cases s with
    | nil => simp [hasPre] at h
    | cons c cs =>
      simp only [hasPre, Bool.and_eq_true, beq_iff_eq] at h
      obtain ⟨rfl, h2⟩ := h
      obtain ⟨hl, ht⟩ := ih cs h2
      simp only [List.length_cons, List.take_succ_cons]
      exact ⟨by omega, by rw [ht]⟩

theorem hasSub_singleton (c : Char) :
    ∀ (s : List Char), hasSub [c] s = true ↔ c ∈ s := by
  intro s
  induction s with
  | nil => simp [hasSub, hasPre]
  | cons d cs ih =>
    simp only [hasSub, hasPre, Bool.and_true, Bool.or_eq_true, beq_iff_eq, ih,
      List.mem_cons]

theorem hasPre_of_take (p : List Char) :
    ∀ (s : List Char), p.length ≤ s.length → s.take p.length = p → hasPre p s = true := by
  induction p with
  | nil => intro s _ _; rfl
  | cons x p ih =>
    intro s hl ht
    cases s with
    | nil => simp at hl
    | cons c cs =>
      simp only [List.length_cons, List.take_succ_cons, List.cons.injEq] at ht hl
      simp only [hasPre, Bool.and_eq_true, beq_iff_eq]
      exact ⟨ht.1.symm, ih cs (by omega) ht.2⟩

theorem splitSub_no_match (pat s : List Char) (h : hasSub pat s = false) :
    splitSub pat s = [s] := by
  unfold splitSub
  rw [splitSubAux_no_match pat s h]
  simp

theorem splitSub_sep_char (c : Char) (a b : List Char) (ha : c ∉ a) :
    splitSub [c] (a ++ c :: b) = a :: splitSub [c] b := by
  unfold splitSub
  have h1 := splitSubAux_skip c [] a ha (a ++ c :: b).length (c :: b) []
  have hlen : (a ++ c :: b).length - a.length = b.length + 1 := by simp
  rw [hlen] at h1
  rw [h1]
  have h2 := splitSubAux_match c [] b (a.reverse ++ []) b.length (by simp)
  simpa using h2

theorem splitSub_boundary (p : Char) (ps : List Char) :
    ∀ (a b : List Char), hasSub (p :: ps) (a ++ (p :: ps).dropLast) = false →
      splitSub (p :: ps) (a ++ (p :: ps) ++ b) = a :: splitSub (p :: ps) b := by
  intro a
  induction a with
  | nil =>
    intro b _
    unfold splitSub
    have hF : (([] : List Char) ++ (p :: ps) ++ b).length = ps.length + b.length + 1 := by
      simp only [List.nil_append, List.length_append, List.length_cons]
      omega
    rw [hF]
    have hm := splitSubAux_match p ps b [] (ps.length + b.length) (Nat.le_refl _)
    simpa using hm
  | cons ch a' ih =>
    intro b hno
    have hno' : hasSub (p :: ps) (a' ++ (p :: ps).dropLast) = false := by
      have h := hno
      simp only [List.cons_append, hasSub, Bool.or_eq_false_iff] at h
      exact h.2
    have hpre : hasPre (p :: ps) (ch :: (a' ++ (p :: ps) ++ b)) = false := by
      cases hx : hasPre (p :: ps) (ch :: (a' ++ (p :: ps) ++ b)) with
      | false => rfl
      | true =>
        exfalso
        obtain ⟨D, q, hDq⟩ :
            ∃ (D : List Char) (q : Char), p :: ps = D ++ [q] :=
          ⟨(p :: ps).dropLast, (p :: ps).getLast (List.cons_ne_nil p ps),
            (List.dropLast_concat_getLast (List.cons_ne_nil p ps)).symm⟩
        have hD : (p :: ps).dropLast = D := by rw [hDq, List.dropLast_concat]
        obtain ⟨hl, ht⟩ := hasPre_take _ _ hx
        rw [hDq] at ht
        have hY : ch :: (a' ++ (D ++ [q]) ++ b)
            = (ch :: (a' ++ D)) ++ ([q] ++ b) := by
          simp [List.append_assoc]
        have hYlen : (D ++ [q]).length ≤ (ch :: (a' ++ D)).length := by
          simp only [List.length_append, List.length_cons, List.length_nil]
          omega
        rw [hY, List.take_append_of_le_length hYlen] at ht
        have hpreY : hasPre (D ++ [q]) (ch :: (a' ++ D)) = true :=
          hasPre_of_take _ _ hYlen ht
        have hsubY := hasSub_of_hasPre _ _ hpreY
        rw [List.cons_append, hD, hDq] at hno
        rw [hno] at hsubY
        cases hsubY
    unfold splitSub
    have hF : ((ch :: a') ++ (p :: ps) ++ b).length
        = (a' ++ (p :: ps) ++ b).length + 1 := by simp
    rw [hF]
    simp only [List.cons_append, splitSubAux, List.append_eq, hpre,
      Bool.false_eq_true, if_false]
    rw [splitSubAux_acc]
    have hrec : splitSubAux (p :: ps) (a' ++ (p :: ps) ++ b).length
        (a' ++ (p :: ps) ++ b) [] = a' :: splitSubAux (p :: ps) b.length b [] := ih b hno'
    rw [hrec]
    simp

/-- C10: parsing the URI that `upload_l2p_s3` builds for a local data file
(split on `/`, take index 4, split off `.nc`) recovers exactly the file's
name without its `.nc` extension, so the CNM message identifier and product
name refer to the uploaded file.  The hypotheses say the environment prefix
and the file's stem contain no slash and the stem contains no `.nc`
occurrence (even one completed by the appended extension), which holds for
all names this program builds. -/
theorem claim10_uri_filename_roundtrip (pre stem p : String) (ds : Dataset)
    (hpre : '/' ∉ pre.data) (hstem : '/' ∉ stem.data)
    (hnc : hasSub ".nc".data (stem.data ++ ".n".data) = false)
    (hname : nameOf p = stem ++ ".nc") :
    create_message_filename (uploadUri pre ds p) = stem := by
  have hdsn : '/' ∉ (dsName ds).data := by cases ds <;> decide
  have hnm : '/' ∉ (nameOf p).data := by
    rw [hname, String.data_append]
    intro hmem
    rcases List.mem_append.mp hmem with h | h
    · exact hstem h
    · exact absurd h (by decide)
  have hpre2 : '/' ∉ pre.data ++ "-l2p-granules".data := by
    intro hmem
    rcases List.mem_append.mp hmem with h | h
    · exact hpre h
    · exact absurd h (by decide)
  have l1 : ("s3://" : String).data = ['s', '3', ':', '/', '/'] := rfl
  have l2 : ("/" : String).data = ['/'] := rfl
  have hdata : (uploadUri pre ds p).data
      = ['s', '3', ':'] ++ '/' :: (([] : List Char)
          ++ '/' :: ((pre.data ++ "-l2p-granules".data)
          ++ '/' :: ((dsName ds).data ++ '/' :: (nameOf p).data))) := by
    simp [uploadUri, String.data_append, l1, l2, List.append_assoc]
  have hsplit : splitSub ['/'] (uploadUri pre ds p).data
      = [['s', '3', ':'], [], pre.data ++ "-l2p-granules".data, (dsName ds).data,
         (nameOf p).data] := by
    rw [hdata]
    rw [splitSub_sep_char '/' ['s', '3', ':'] _ (by decide)]
    rw [splitSub_sep_char '/' ([] : List Char) _ (by decide)]
    rw [splitSub_sep_char '/' (pre.data ++ "-l2p-granules".data) _ hpre2]
    rw [splitSub_sep_char '/' (dsName ds).data _ hdsn]
    rw [splitSub_no_match ['/'] _
      (Bool.eq_false_iff.mpr (fun hh => hnm ((hasSub_singleton '/' _).mp hh)))]
  unfold create_message_filename splitStr
  rw [hsplit]
  simp only [List.map_cons, List.map_nil]
  have hget : [String.mk ['s', '3', ':'], String.mk [],
      String.mk (pre.data ++ "-l2p-granules".data), String.mk (dsName ds).data,
      String.mk (nameOf p).data].getD 4 "" = String.mk (nameOf p).data := rfl
  rw [hget]
  have hmk : String.mk (nameOf p).data = nameOf p := rfl
  rw [hmk, hname]
  have hd2 : (stem ++ ".nc").data = stem.data ++ ('.' :: ['n', 'c']) ++ ([] : List Char) := by
    rw [String.data_append]
    simp
  rw [hd2]
  rw [splitSub_boundary '.' ['n', 'c'] stem.data [] (by exact hnc)]
  rfl

/-- Witness for C10 at a concrete uploaded day-file path. -/
theorem claim10_witness :
    (('/' ∉ ("podaac-ops" : String).data)
      ∧ ('/' ∉ ("20230101120000-JPL-L2P_GHRSST-SSTskin-MODIS_A-D-v02.0-fv01.0" : String).data)
      ∧ hasSub ".nc".data
          (("20230101120000-JPL-L2P_GHRSST-SSTskin-MODIS_A-D-v02.0-fv01.0" : String).data
            ++ (".n" : String).data) = false
      ∧ nameOf "/mnt/data/20230101120000-JPL-L2P_GHRSST-SSTskin-MODIS_A-D-v02.0-fv01.0.nc"
          = "20230101120000-JPL-L2P_GHRSST-SSTskin-MODIS_A-D-v02.0-fv01.0" ++ ".nc")
    ∧ create_message_filename (uploadUri "podaac-ops" Dataset.aqua
        "/mnt/data/20230101120000-JPL-L2P_GHRSST-SSTskin-MODIS_A-D-v02.0-fv01.0.nc")
      = "20230101120000-JPL-L2P_GHRSST-SSTskin-MODIS_A-D-v02.0-fv01.0" :=
  ⟨⟨by decide, by decide, by decide, by decide⟩,
   claim10_uri_filename_roundtrip "podaac-ops"
     "20230101120000-JPL-L2P_GHRSST-SSTskin-MODIS_A-D-v02.0-fv01.0"
     "/mnt/data/20230101120000-JPL-L2P_GHRSST-SSTskin-MODIS_A-D-v02.0-fv01.0.nc"
     Dataset.aqua (by decide) (by decide) (by decide) (by decide)⟩

/-! ## Characterisation of the candidate file names -/

theorem intercalate_pair (sep a b : List Char) :
    List.intercalate sep [a, b] = a ++ sep ++ b := by
  simp [List.intercalate, List.intersperse]

theorem intercalate_cons_append (sep a x : List Char) (t : List (List Char)) :
    List.intercalate sep ((a ++ x) :: t) = a ++ List.intercalate sep (x :: t) := by
  cases t <;> simp [List.intercalate, List.intersperse, List.append_assoc]

theorem splitSubAux_ne_nil (pat : List Char) :
    ∀ (fuel : Nat) (s acc : List Char), splitSubAux pat fuel s acc ≠ [] := by
  intro fuel
  induction fuel with
  | zero => intro s acc; cases s <;> simp [splitSubAux]
  | succ fuel ih =>
    intro s acc
    cases s with
    | nil => simp [splitSubAux]
    | cons c cs =>
      by_cases hp : hasPre pat (c :: cs) = true <;> simp [splitSubAux, hp, ih]

theorem splitSub_append_left (p : Char) (ps a b : List Char) (hpa : p ∉ a) :
    splitSub (p :: ps) (a ++ b)
      = (a ++ (splitSub (p :: ps) b).headI) :: (splitSub (p :: ps) b).tail := by
  unfold splitSub
  rw [splitSubAux_skip p ps a hpa, show (a ++ b).length - a.length = b.length by simp,
    splitSubAux_acc]
  cases hsb : splitSubAux (p :: ps) b.length b [] with
  | nil => exact absurd hsb (splitSubAux_ne_nil _ _ _ _)
  | cons h t => simp

theorem replaceStr_TS (ds : Dataset) (ts : String) :
    replaceStr "TS" ts (filenameTpl ds) = ts ++ tplTail ds := by
  apply String.ext
  rw [String.data_append]
  show List.intercalate ts.data (splitSub "TS".data (filenameTpl ds).data) = _
  cases ds with
  | aqua =>
    rw [show splitSub "TS".data (filenameTpl Dataset.aqua).data
        = [[], (tplTail Dataset.aqua).data] by decide]
    rw [intercalate_pair]
    simp
  | terra =>
    rw [show splitSub "TS".data (filenameTpl Dataset.terra).data
        = [[], (tplTail Dataset.terra).data] by decide]
    rw [intercalate_pair]
    simp
  | viirs =>
    rw [show splitSub "TS".data (filenameTpl Dataset.viirs).data
        = [[], (tplTail Dataset.viirs).data] by decide]
    rw [intercalate_pair]
    simp

theorem replace_variant (ds : Dataset) (ts v : String) (hts : '-' ∉ ts.data) :
    (replaceStr "-T-" v (ts ++ tplTail ds)).data
      = ts.data ++ List.intercalate v.data (splitSub "-T-".data (tplTail ds).data) := by
  show List.intercalate v.data (splitSub "-T-".data (ts ++ tplTail ds).data) = _
  rw [String.data_append]
  rw [show ("-T-" : String).data = '-' :: ['T', '-'] from rfl]
  rw [splitSub_append_left '-' ['T', '-'] ts.data (tplTail ds).data hts]
  cases hsb : splitSub ('-' :: ['T', '-']) (tplTail ds).data with
  | nil =>
    exact absurd hsb (splitSubAux_ne_nil _ _ _ _)
  | cons h t =>
    simp only [List.headI, List.tail_cons]
    exact intercalate_cons_append v.data ts.data h t

theorem dayName_eq (ds : Dataset) (ts : String) (hts : '-' ∉ ts.data) :
    replaceStr "-T-" "-D-" (ts ++ tplTail ds) = ts ++ dayTail ds := by
  apply String.ext
  rw [replace_variant ds ts "-D-" hts, String.data_append]
  congr 1
  cases ds <;> decide

theorem nightName_eq (ds : Dataset) (ts : String) (hts : '-' ∉ ts.data) :
    replaceStr "-T-" "-N-" (ts ++ tplTail ds) = ts ++ nightTail ds := by
  apply String.ext
  rw [replace_variant ds ts "-N-" hts, String.data_append]
  congr 1
  cases ds <;> decide

theorem dataFilePath_day (dataDir : String) (ds : Dataset) (ptype ts : String)
    (tm : PyTime) (hts : '-' ∉ ts.data) :
    dataFilePath dataDir ds ptype ts tm "-D-"
      = l2pDirFor dataDir ds ptype tm ++ "/" ++ (ts ++ (dayTail ds ++ ".nc")) := by
  unfold dataFilePath joinP
  rw [replaceStr_TS, dayName_eq ds ts hts]
  simp [String.append_assoc]

theorem dataFilePath_night (dataDir : String) (ds : Dataset) (ptype ts : String)
    (tm : PyTime) (hts : '-' ∉ ts.data) :
    dataFilePath dataDir ds ptype ts tm "-N-"
      = l2pDirFor dataDir ds ptype tm ++ "/" ++ (ts ++ (nightTail ds ++ ".nc")) := by
  unfold dataFilePath joinP
  rw [replaceStr_TS, nightName_eq ds ts hts]
  simp [String.append_assoc]

theorem strptime_digits (s : String) (h : (strptime14 s).isSome = true) :
    s.data.length = 14 ∧ ∀ c ∈ s.data, c.isDigit = true := by
  unfold strptime14 at h
  by_cases h1 : (s.data.length == 14 && s.data.all Char.isDigit) = true
  · simp only [Bool.and_eq_true, beq_iff_eq, List.all_eq_true] at h1
    exact ⟨h1.1, h1.2⟩
  · rw [if_neg h1] at h
    simp at h

theorem digit_ne_dash_slash (c : Char) (h : c.isDigit = true) : c ≠ '-' ∧ c ≠ '/' := by
  constructor <;> intro he <;> subst he <;> simp [Char.isDigit] at h

theorem candidatePaths_eq (dataDir : String) (ds : Dataset) (ptype t : String)
    (tm : PyTime) (h : strptime14 (stripT t) = some tm)
    (hts : '-' ∉ (stripT t).data) :
    candidatePaths dataDir ds ptype t
      = [l2pDirFor dataDir ds ptype tm ++ "/" ++ (stripT t ++ (dayTail ds ++ ".nc")),
         l2pDirFor dataDir ds ptype tm ++ "/" ++ (stripT t ++ (nightTail ds ++ ".nc"))] := by
  simp only [candidatePaths, h]
  rw [dataFilePath_day dataDir ds ptype (stripT t) tm hts,
    dataFilePath_night dataDir ds ptype (stripT t) tm hts]

/-! ## Path names and URIs -/

theorem takeWhile_append_cons (p : Char → Bool) (l1 : List Char) (x : Char) (l2 : List Char)
    (h1 : ∀ c ∈ l1, p c = true) (hx : p x = false) :
    (l1 ++ x :: l2).takeWhile p = l1 := by
  induction l1 with
  | nil => simp [List.takeWhile_cons, hx]
  | cons c cs ih =>
    have hc : p c = true := h1 c (by simp)
    simp only [List.cons_append, List.takeWhile_cons, hc, if_true]
    rw [ih (fun d hd => h1 d (by simp [hd]))]

theorem takeWhile_append_all (p : Char → Bool) (l1 l2 : List Char)
    (h1 : ∀ c ∈ l1, p c = true) :
    (l1 ++ l2).takeWhile p = l1 ++ l2.takeWhile p := by
  induction l1 with
  | nil => simp
  | cons c cs ih =>
    have hc : p c = true := h1 c (by simp)
    simp only [List.cons_append, List.takeWhile_cons, hc, if_true]
    rw [ih (fun d hd => h1 d (by simp [hd]))]

theorem nameOf_join (d f : String) (hf : '/' ∉ f.data) : nameOf (d ++ "/" ++ f) = f := by
  apply String.ext
  show ((d ++ "/" ++ f).data.reverse.takeWhile (fun c => c != '/')).reverse = f.data
  rw [String.data_append, String.data_append,
    show ("/" : String).data = ['/'] from rfl,
    List.reverse_append, List.reverse_append]
  have hall : ∀ c ∈ f.data.reverse, (c != '/') = true := by
    intro c hc
    have hm : c ∈ f.data := List.mem_reverse.mp hc
    have hcne : c ≠ '/' := fun he => hf (by rw [← he]; exact hm)
    simpa using hcne
  rw [show (['/'] : List Char).reverse = ['/'] from rfl, List.singleton_append,
    takeWhile_append_cons _ _ _ _ hall (by simp), List.reverse_reverse]

theorem nameOf_append (y z : String) (hz : '/' ∉ z.data) :
    nameOf (y ++ z) = nameOf y ++ z := by
  apply String.ext
  show ((y ++ z).data.reverse.takeWhile (fun c => c != '/')).reverse
      = (nameOf y).data ++ z.data
  rw [String.data_append, List.reverse_append]
  have hall : ∀ c ∈ z.data.reverse, (c != '/') = true := by
    intro c hc
    have hm : c ∈ z.data := List.mem_reverse.mp hc
    have hcne : c ≠ '/' := fun he => hz (by rw [← he]; exact hm)
    simpa using hcne
  rw [takeWhile_append_all _ _ _ hall, List.reverse_append, List.reverse_reverse]
  rfl

theorem append_cancel_left_str (a b c : String) (h : a ++ b = a ++ c) : b = c := by
  have hd := congrArg String.data h
  rw [String.data_append, String.data_append] at hd
  exact String.ext (List.append_cancel_left hd)

theorem append_cancel_right_str (a b c : String) (h : a ++ c = b ++ c) : a = b := by
  have hd := congrArg String.data h
  rw [String.data_append, String.data_append] at hd
  exact String.ext (List.append_cancel_right hd)

theorem append_inj_str (a b c d : String) (h : a ++ b = c ++ d)
    (hl : a.data.length = c.data.length) : a = c ∧ b = d := by
  have hd := congrArg String.data h
  rw [String.data_append, String.data_append] at hd
  obtain ⟨h1, h2⟩ := List.append_inj hd hl
  exact ⟨String.ext h1, String.ext h2⟩

theorem uploadUri_eq (pre : String) (ds : Dataset) (p : String) :
    uploadUri pre ds p
      = ("s3://" ++ pre ++ "-l2p-granules" ++ "/" ++ dsName ds ++ "/") ++ nameOf p := by
  unfold uploadUri
  simp [String.append_assoc]

theorem uploadUri_inj_name (pre : String) (ds : Dataset) (p q : String)
    (h : uploadUri pre ds p = uploadUri pre ds q) : nameOf p = nameOf q := by
  rw [uploadUri_eq, uploadUri_eq] at h
  exact append_cancel_left_str _ _ _ h

theorem hasSub_append_right (pat : List Char) (hne : pat ≠ []) :
    ∀ (a : List Char), hasSub pat (a ++ pat) = true := by
  intro a
  induction a with
  | nil =>
    have hp : hasPre pat pat = true :=
      hasPre_of_take pat pat (Nat.le_refl _) (List.take_length pat)
    cases pat with
    | nil => exact absurd rfl hne
    | cons c cs => simpa [hasSub] using Or.inl hp
  | cons c a ih =>
    simp [hasSub, ih]

theorem subStr_md5_of_suffix (u x : String) (h : u = x ++ ".md5") :
    subStr ".md5" u = true := by
  subst h
  unfold subStr
  rw [String.data_append]
  exact hasSub_append_right ".md5".data (by decide) x.data

theorem endsWith_exists (s suf : String) (h : endsWithStr s suf = true) :
    ∃ x : String, s = x ++ suf := by
  unfold endsWithStr at h
  obtain ⟨hl, ht⟩ := hasPre_take _ _ h
  refine ⟨⟨(s.data.reverse.drop suf.data.reverse.length).reverse⟩, ?_⟩
  apply String.ext
  rw [String.data_append]
  have hsplit := List.take_append_drop suf.data.reverse.length s.data.reverse
  rw [ht] at hsplit
  have := congrArg List.reverse hsplit
  rw [List.reverse_append, List.reverse_reverse, List.reverse_reverse] at this
  exact this.symm

/-! ## Injectivity of candidate paths and URIs -/

theorem stripT_digits_facts (t : String) (hval : (strptime14 (stripT t)).isSome = true) :
    (stripT t).data.length = 14
      ∧ '-' ∉ (stripT t).data ∧ '/' ∉ (stripT t).data := by
  have hdig := strptime_digits _ hval
  refine ⟨hdig.1, fun hm => ?_, fun hm => ?_⟩
  · exact (digit_ne_dash_slash _ (hdig.2 _ hm)).1 rfl
  · exact (digit_ne_dash_slash _ (hdig.2 _ hm)).2 rfl

theorem tail_nc_no_slash (ds : Dataset) :
    '/' ∉ (dayTail ds ++ ".nc").data ∧ '/' ∉ (nightTail ds ++ ".nc").data := by
  cases ds <;> exact ⟨by decide, by decide⟩

theorem mem_cand_shape (dataDir : String) (ds : Dataset) (ptype t q : String)
    (hval : (strptime14 (stripT t)).isSome = true)
    (hq : q ∈ candidatePaths dataDir ds ptype t) :
    ∃ (tm : PyTime) (k : String),
      strptime14 (stripT t) = some tm
      ∧ (k = dayTail ds ++ ".nc" ∨ k = nightTail ds ++ ".nc")
      ∧ q = l2pDirFor dataDir ds ptype tm ++ "/" ++ (stripT t ++ k) := by
  obtain ⟨tm, htm⟩ := Option.isSome_iff_exists.mp hval
  obtain ⟨_, hdash, _⟩ := stripT_digits_facts t hval
  rw [candidatePaths_eq dataDir ds ptype t tm htm hdash] at hq
  simp only [List.mem_cons, List.not_mem_nil, or_false] at hq
  rcases hq with h | h
  · exact ⟨tm, _, htm, Or.inl rfl, h⟩
  · exact ⟨tm, _, htm, Or.inr rfl, h⟩

theorem cand_no_slash (ds : Dataset) (ts k : String) (hts : '/' ∉ ts.data)
    (hk : k = dayTail ds ++ ".nc" ∨ k = nightTail ds ++ ".nc") :
    '/' ∉ (ts ++ k).data := by
  rw [String.data_append]
  intro hm
  rcases List.mem_append.mp hm with h | h
  · exact hts h
  · rcases hk with rfl | rfl
    · exact (tail_nc_no_slash ds).1 h
    · exact (tail_nc_no_slash ds).2 h

theorem cand_nameOf (dataDir : String) (ds : Dataset) (ptype t q : String)
    (hval : (strptime14 (stripT t)).isSome = true)
    (hq : q ∈ candidatePaths dataDir ds ptype t) :
    ∃ (tm : PyTime) (k : String),
      strptime14 (stripT t) = some tm
      ∧ (k = dayTail ds ++ ".nc" ∨ k = nightTail ds ++ ".nc")
      ∧ q = l2pDirFor dataDir ds ptype tm ++ "/" ++ (stripT t ++ k)
      ∧ nameOf q = stripT t ++ k := by
  obtain ⟨tm, k, htm, hk, hq'⟩ := mem_cand_shape dataDir ds ptype t q hval hq
  obtain ⟨_, _, hsl⟩ := stripT_digits_facts t hval
  refine ⟨tm, k, htm, hk, hq', ?_⟩
  rw [hq']
  exact nameOf_join _ _ (cand_no_slash ds (stripT t) k hsl hk)

theorem tails_ne (ds : Dataset) : dayTail ds ++ ".nc" ≠ nightTail ds ++ ".nc" := by
  cases ds <;> decide

theorem tails_len (ds : Dataset) (k : String)
    (hk : k = dayTail ds ++ ".nc" ∨ k = nightTail ds ++ ".nc") :
    k.data.length = (dayTail ds ++ ".nc").data.length := by
  rcases hk with rfl | rfl
  · rfl
  · cases ds <;> decide

theorem cand_inj (dataDir : String) (ds : Dataset) (ptype : String) (t1 t2 q1 q2 : String)
    (hv1 : (strptime14 (stripT t1)).isSome = true)
    (hv2 : (strptime14 (stripT t2)).isSome = true)
    (hq1 : q1 ∈ candidatePaths dataDir ds ptype t1)
    (hq2 : q2 ∈ candidatePaths dataDir ds ptype t2)
    (hname : nameOf q1 = nameOf q2) :
    stripT t1 = stripT t2 ∧ q1 = q2 := by
  obtain ⟨tm1, k1, htm1, hk1, hsh1, hn1⟩ := cand_nameOf dataDir ds ptype t1 q1 hv1 hq1
  obtain ⟨tm2, k2, htm2, hk2, hsh2, hn2⟩ := cand_nameOf dataDir ds ptype t2 q2 hv2 hq2
  rw [hn1, hn2] at hname
  have hlen : (stripT t1).data.length = (stripT t2).data.length := by
    rw [(stripT_digits_facts t1 hv1).1, (stripT_digits_facts t2 hv2).1]
  obtain ⟨hts, hkk⟩ := append_inj_str _ _ _ _ hname hlen
  refine ⟨hts, ?_⟩
  have htm : tm1 = tm2 := by
    rw [hts] at htm1
    rw [htm1] at htm2
    exact (Option.some.injEq _ _).mp htm2
  rw [hsh1, hsh2, hts, hkk, htm]

/-! ## No duplicates among located files -/

theorem cand_pair_nodup (dataDir : String) (ds : Dataset) (ptype t : String)
    (hval : (strptime14 (stripT t)).isSome = true) :
    (candidatePaths dataDir ds ptype t).Nodup := by
  obtain ⟨tm, htm⟩ := Option.isSome_iff_exists.mp hval
  obtain ⟨_, hdash, _⟩ := stripT_digits_facts t hval
  rw [candidatePaths_eq dataDir ds ptype t tm htm hdash]
  refine List.nodup_cons.mpr ⟨?_, List.nodup_singleton _⟩
  intro hmem
  simp only [List.mem_singleton] at hmem
  have h1 := append_cancel_left_str _ _ _ hmem
  have h2 := append_cancel_left_str _ _ _ h1
  exact tails_ne ds h2

theorem candsFiltered_nodup (isFile : String → Bool) (dataDir : String) (ds : Dataset)
    (ptype : String) (tss : List String)
    (hvalid : ∀ t ∈ tss, (strptime14 (stripT t)).isSome = true)
    (hnd : (tss.map stripT).Nodup) :
    (tss.flatMap (fun t => (candidatePaths dataDir ds ptype t).filter
      (fun p => isFile p && isFile (p ++ ".md5")))).Nodup := by
  apply List.nodup_flatMap.mpr
  constructor
  · intro t ht
    exact (cand_pair_nodup dataDir ds ptype t (hvalid t ht)).filter _
  · have hpw : tss.Pairwise (fun a b => stripT a ≠ stripT b) := List.pairwise_map.mp hnd
    refine hpw.imp_of_mem ?_
    intro a b ha hb hne
    intro q hqa hqb
    have hqa' := List.mem_of_mem_filter hqa
    have hqb' := List.mem_of_mem_filter hqb
    have := (cand_inj dataDir ds ptype a b q q (hvalid a ha) (hvalid b hb)
      hqa' hqb' rfl).1
    exact hne this

theorem str_ne_of_append_md5 (q : String) : q ≠ q ++ ".md5" := by
  intro h
  have := congrArg (fun s : String => s.data.length) h
  simp only [String.data_append] at this
  simp at this

theorem blocks_nodup (l : List String) (hn : l.Nodup)
    (he : ∀ q ∈ l, ∃ a, q = a ++ ".nc") :
    (l.flatMap (fun q => [q, q ++ ".md5"])).Nodup := by
  apply List.nodup_flatMap.mpr
  constructor
  · intro q _
    refine List.nodup_cons.mpr ⟨?_, List.nodup_singleton _⟩
    simpa using str_ne_of_append_md5 q
  · refine hn.imp_of_mem ?_
    intro a b ha hb hne
    intro x hxa hxb
    obtain ⟨ya, hya⟩ := he a ha
    obtain ⟨yb, hyb⟩ := he b hb
    simp only [List.mem_cons, List.mem_singleton, List.not_mem_nil, or_false] at hxa hxb
    rcases hxa with rfl | rfl <;> rcases hxb with h | h
    · exact hne h
    · exact ne_append_nc_md5 ya b (by rw [← hya, h])
    · exact ne_append_nc_md5 yb a (by rw [← hyb, ← h])
    · exact hne (append_cancel_right_str _ _ _ h)

theorem foundSpec_eq_blocks (isFile : String → Bool) (dataDir : String) (ds : Dataset)
    (ptype : String) (tss : List String) :
    foundSpec isFile dataDir ds ptype tss
      = (tss.flatMap (fun t => (candidatePaths dataDir ds ptype t).filter
          (fun p => isFile p && isFile (p ++ ".md5")))).flatMap
        (fun q => [q, q ++ ".md5"]) := by
  unfold foundSpec
  exact (List.flatMap_assoc _ _ _).symm

theorem foundSpec_nodup (isFile : String → Bool) (dataDir : String) (ds : Dataset)
    (ptype : String) (tss : List String)
    (hvalid : ∀ t ∈ tss, (strptime14 (stripT t)).isSome = true)
    (hnd : (tss.map stripT).Nodup) :
    (foundSpec isFile dataDir ds ptype tss).Nodup := by
  rw [foundSpec_eq_blocks]
  apply blocks_nodup _ (candsFiltered_nodup isFile dataDir ds ptype tss hvalid hnd)
  intro q hq
  obtain ⟨t, ht, hqf⟩ := List.mem_flatMap.mp hq
  exact mem_candidatePaths_ends_nc dataDir ds ptype t q (List.mem_of_mem_filter hqf)

theorem mem_foundSpec (isFile : String → Bool) (dataDir : String) (ds : Dataset)
    (ptype : String) (tss : List String) (p : String) :
    p ∈ foundSpec isFile dataDir ds ptype tss ↔
      ∃ t ∈ tss, ∃ q ∈ candidatePaths dataDir ds ptype t,
        isFile q = true ∧ isFile (q ++ ".md5") = true ∧ (p = q ∨ p = q ++ ".md5") := by
  unfold foundSpec
  constructor
  · intro h
    obtain ⟨t, ht, hp⟩ := List.mem_flatMap.mp h
    obtain ⟨q, hq, hpq⟩ := List.mem_flatMap.mp hp
    obtain ⟨hqc, hcond⟩ := List.mem_filter.mp hq
    simp only [Bool.and_eq_true] at hcond
    simp only [List.mem_cons, List.mem_singleton, List.not_mem_nil, or_false] at hpq
    exact ⟨t, ht, q, hqc, hcond.1, hcond.2, hpq⟩
  · rintro ⟨t, ht, q, hqc, hf1, hf2, hpq⟩
    refine List.mem_flatMap.mpr ⟨t, ht, List.mem_flatMap.mpr ⟨q, ?_, ?_⟩⟩
    · exact List.mem_filter.mpr ⟨hqc, by simp [hf1, hf2]⟩
    · simpa using hpq

theorem mem_missingSpec (isFile : String → Bool) (dataDir : String) (ds : Dataset)
    (ptype : String) (tss : List String) (m : String) :
    m ∈ missingSpec isFile dataDir ds ptype tss ↔
      ∃ t ∈ tss, m ∈ candidatePaths dataDir ds ptype t
        ∧ isFile m = true ∧ isFile (m ++ ".md5") = false := by
  unfold missingSpec
  constructor
  · intro h
    obtain ⟨t, ht, hm⟩ := List.mem_flatMap.mp h
    obtain ⟨hmc, hcond⟩ := List.mem_filter.mp hm
    simp only [Bool.and_eq_true, Bool.not_eq_true'] at hcond
    exact ⟨t, ht, hmc, hcond.1, hcond.2⟩
  · rintro ⟨t, ht, hmc, hf1, hf2⟩
    exact List.mem_flatMap.mpr ⟨t, ht, List.mem_filter.mpr ⟨hmc, by simp [hf1, hf2]⟩⟩

theorem cand_name_ends_nc (ds : Dataset) (ts k : String)
    (hk : k = dayTail ds ++ ".nc" ∨ k = nightTail ds ++ ".nc") :
    ∃ a : String, ts ++ k = a ++ ".nc" := by
  rcases hk with rfl | rfl
  · exact ⟨ts ++ dayTail ds, (String.append_assoc _ _ _).symm⟩
  · exact ⟨ts ++ nightTail ds, (String.append_assoc _ _ _).symm⟩

theorem found_uri_inj (isFile : String → Bool) (dataDir pre : String) (ds : Dataset)
    (ptype : String) (tss : List String)
    (hvalid : ∀ t ∈ tss, (strptime14 (stripT t)).isSome = true)
    (p1 p2 : String)
    (h1 : p1 ∈ foundSpec isFile dataDir ds ptype tss)
    (h2 : p2 ∈ foundSpec isFile dataDir ds ptype tss)
    (hu : uploadUri pre ds p1 = uploadUri pre ds p2) : p1 = p2 := by
  have hn := uploadUri_inj_name pre ds p1 p2 hu
  obtain ⟨t1, ht1, q1, hq1, _, _, hp1⟩ := (mem_foundSpec _ _ _ _ _ _).mp h1
  obtain ⟨t2, ht2, q2, hq2, _, _, hp2⟩ := (mem_foundSpec _ _ _ _ _ _).mp h2
  obtain ⟨tm1, k1, htm1, hk1, hsh1, hname1⟩ :=
    cand_nameOf dataDir ds ptype t1 q1 (hvalid t1 ht1) hq1
  obtain ⟨tm2, k2, htm2, hk2, hsh2, hname2⟩ :=
    cand_nameOf dataDir ds ptype t2 q2 (hvalid t2 ht2) hq2
  rcases hp1 with rfl | rfl <;> rcases hp2 with rfl | rfl
  · exact (cand_inj dataDir ds ptype t1 t2 p1 p2 (hvalid t1 ht1) (hvalid t2 ht2)
      hq1 hq2 hn).2
  · exfalso
    rw [nameOf_append q2 ".md5" (by decide), hname1, hname2] at hn
    obtain ⟨a, ha⟩ := cand_name_ends_nc ds (stripT t1) k1 hk1
    rw [ha] at hn
    exact ne_append_nc_md5 a (stripT t2 ++ k2) hn
  · exfalso
    rw [nameOf_append q1 ".md5" (by decide), hname1, hname2] at hn
    obtain ⟨a, ha⟩ := cand_name_ends_nc ds (stripT t2) k2 hk2
    rw [ha] at hn
    exact ne_append_nc_md5 a (stripT t1 ++ k1) hn.symm
  · rw [nameOf_append q1 ".md5" (by decide), nameOf_append q2 ".md5" (by decide)] at hn
    have hq := append_cancel_right_str _ _ _ hn
    have := (cand_inj dataDir ds ptype t1 t2 q1 q2 (hvalid t1 ht1) (hvalid t2 ht2)
      hq1 hq2 hq).2
    rw [this]

theorem upload_l2p_s3_fst (ok : String → Bool) (pre : String) (ds : Dataset)
    (l : List String) :
    (upload_l2p_s3 ok pre ds l).1 = (l.filter (fun p => ok p)).map (uploadUri pre ds) := by
  induction l with
  | nil => rfl
  | cons a l ih => cases h : ok a <;> simp [upload_l2p_s3, List.filter_cons, h, ih]

/-- C6: in the composed pipeline (locate, upload, publish), a CNM message
is published only for URIs of successfully uploaded files that are not
checksum sidecars; no file ending in `.md5` ever gets a message; no file
recorded in `missing_checksum` ever gets a message; and (for distinct
stripped timestamps) at most one message is published per URI, hence at
most one per successful upload pair. -/
theorem claim6_publish_only_uploaded_data (isFile ok : String → Bool)
    (dataDir pre : String) (ds : Dataset) (ptype : String) (tss : List String)
    (hvalid : ∀ t ∈ tss, (strptime14 (stripT t)).isSome = true)
    (hnd : (tss.map stripT).Nodup) :
    (∀ u ∈ (uploadPipeline isFile ok dataDir pre ds ptype tss).2.2,
        u ∈ (uploadPipeline isFile ok dataDir pre ds ptype tss).2.1
          ∧ subStr ".md5" u = false)
    ∧ (∀ p : String, endsWithStr p ".md5" = true →
        uploadUri pre ds p ∉ (uploadPipeline isFile ok dataDir pre ds ptype tss).2.2)
    ∧ (∀ m ∈ (uploadPipeline isFile ok dataDir pre ds ptype tss).1,
        uploadUri pre ds m ∉ (uploadPipeline isFile ok dataDir pre ds ptype tss).2.2)
    ∧ (∀ u : String,
        ((uploadPipeline isFile ok dataDir pre ds ptype tss).2.2).count u ≤ 1) := by
  have hpipe : uploadPipeline isFile ok dataDir pre ds ptype tss
      = (missingSpec isFile dataDir ds ptype tss,
         (upload_l2p_s3 ok pre ds (foundSpec isFile dataDir ds ptype tss)).1,
         publish_cnm_message
           (upload_l2p_s3 ok pre ds (foundSpec isFile dataDir ds ptype tss)).1) := by
    unfold uploadPipeline
    rw [load_efs_l2p_eq isFile dataDir ds ptype tss hvalid]
    rfl
  rw [hpipe]
  have hS3 : (upload_l2p_s3 ok pre ds (foundSpec isFile dataDir ds ptype tss)).1
      = ((foundSpec isFile dataDir ds ptype tss).filter (fun p => ok p)).map
          (uploadUri pre ds) := upload_l2p_s3_fst ok pre ds _
  have hS3nodup : (upload_l2p_s3 ok pre ds (foundSpec isFile dataDir ds ptype tss)).1.Nodup := by
    rw [hS3]
    refine List.Nodup.map_on ?_ ((foundSpec_nodup isFile dataDir ds ptype tss hvalid hnd).filter _)
    intro x hx y hy hxy
    exact found_uri_inj isFile dataDir pre ds ptype tss hvalid x y
      (List.mem_of_mem_filter hx) (List.mem_of_mem_filter hy) hxy
  refine ⟨?_, ?_, ?_, ?_⟩
  · intro u hu
    obtain ⟨hmem, hns⟩ := List.mem_filter.mp hu
    exact ⟨hmem, by simpa using hns⟩
  · intro p hp hmem
    obtain ⟨x, hx⟩ := endsWith_exists p ".md5" hp
    obtain ⟨_, hns⟩ := List.mem_filter.mp hmem
    have hsub : subStr ".md5" (uploadUri pre ds p) = true := by
      refine subStr_md5_of_suffix _ (("s3://" ++ pre ++ "-l2p-granules" ++ "/"
        ++ dsName ds ++ "/") ++ nameOf x) ?_
      rw [uploadUri_eq, hx, nameOf_append x ".md5" (by decide), ← String.append_assoc]
    rw [hsub] at hns
    simp at hns
  · intro m hm hmem
    obtain ⟨t', ht', hmc, hmf, hmmd⟩ := (mem_missingSpec _ _ _ _ _ _).mp hm
    obtain ⟨hus3, _⟩ := List.mem_filter.mp hmem
    rw [hS3] at hus3
    obtain ⟨p, hpf, hup⟩ := List.mem_map.mp hus3
    have hpfound := List.mem_of_mem_filter hpf
    obtain ⟨t, ht, q, hq, hf1, hf2, hpq⟩ := (mem_foundSpec _ _ _ _ _ _).mp hpfound
    have hnm := uploadUri_inj_name pre ds p m hup
    rcases hpq with rfl | rfl
    · have hqm := (cand_inj dataDir ds ptype t t' p m (hvalid t ht) (hvalid t' ht')
        hq hmc hnm).2
      rw [hqm] at hf2
      rw [hf2] at hmmd
      cases hmmd
    · obtain ⟨tm', k', htm', hk', hsh', hname'⟩ :=
        cand_nameOf dataDir ds ptype t' m (hvalid t' ht') hmc
      rw [nameOf_append q ".md5" (by decide), hname'] at hnm
      obtain ⟨a, ha⟩ := cand_name_ends_nc ds (stripT t') k' hk'
      rw [ha] at hnm
      exact ne_append_nc_md5 a (nameOf q) hnm.symm
  · intro u
    exact List.nodup_iff_count_le_one.mp (hS3nodup.filter _) u

/-- Witness for C6 at one valid timestamp with all files present and all
uploads succeeding. -/
theorem claim6_witness :
    ((∀ t ∈ ["20230101T120000"], (strptime14 (stripT t)).isSome = true)
      ∧ ((["20230101T120000"] : List String).map stripT).Nodup)
    ∧ ((∀ u ∈ (uploadPipeline (fun _ => true) (fun _ => true) "/mnt/data" "podaac-ops"
          Dataset.aqua "quicklook" ["20230101T120000"]).2.2,
        u ∈ (uploadPipeline (fun _ => true) (fun _ => true) "/mnt/data" "podaac-ops"
          Dataset.aqua "quicklook" ["20230101T120000"]).2.1
          ∧ subStr ".md5" u = false)
      ∧ (∀ p : String, endsWithStr p ".md5" = true →
          uploadUri "podaac-ops" Dataset.aqua p
            ∉ (uploadPipeline (fun _ => true) (fun _ => true) "/mnt/data" "podaac-ops"
                Dataset.aqua "quicklook" ["20230101T120000"]).2.2)
      ∧ (∀ m ∈ (uploadPipeline (fun _ => true) (fun _ => true) "/mnt/data" "podaac-ops"
            Dataset.aqua "quicklook" ["20230101T120000"]).1,
          uploadUri "podaac-ops" Dataset.aqua m
            ∉ (uploadPipeline (fun _ => true) (fun _ => true) "/mnt/data" "podaac-ops"
                Dataset.aqua "quicklook" ["20230101T120000"]).2.2)
      ∧ (∀ u : String,
          ((uploadPipeline (fun _ => true) (fun _ => true) "/mnt/data" "podaac-ops"
            Dataset.aqua "quicklook" ["20230101T120000"]).2.2).count u ≤ 1)) :=
  ⟨⟨by decide, by decide⟩,
   claim6_publish_only_uploaded_data (fun _ => true) (fun _ => true) "/mnt/data"
     "podaac-ops" Dataset.aqua "quicklook" ["20230101T120000"] (by decide) (by decide)⟩
